import Mathlib

/-!
Verification of the json2relcsv converter (scanner, parser error model, AST,
schema-inference / CSV engine, CLI entry point) against its specification.

The development shallowly embeds the final variant of the C++ sources:
  - csv_generator.cpp (first, final variant) / csv_generator.h
  - ast.cpp / ast.h
  - the flex scanner string decoder (process_string)
  - the bison grammar error-recovery actions (parser.y, final variant)
  - main (final variant, with the has_syntax_error check)
Strings are modelled as Lean String (lists of chars; scanner bytes are
modelled as chars with code points below 256).  The std::map over table
names is modelled as a key-sorted association list, matching iteration
order of std::map<std::string, ...>.
-/

namespace Json2RelCsv

/-! ### String helpers (csv_generator.cpp top of file, scanner helpers) -/

/-- C `isspace` for the ASCII characters produced by the scanner. -/
def isCSpace (c : Char) : Bool :=
  c = ' ' || c = '\t' || c = '\n' || c = '\x0b' || c = '\x0c' || c = '\r'

/-- Source `trimString`: drop leading and trailing `isspace` characters
(`std::find_if_not` from each end; empty when all spaces). -/
def trimString (s : String) : String :=
  ⟨((s.data.dropWhile isCSpace).reverse.dropWhile isCSpace).reverse⟩

/-- Source `unquote`: trim, then strip one layer of surrounding double quotes
when the trimmed string has length at least 2 and starts and ends with a quote. -/
def unquote (s : String) : String :=
  let r := trimString s
  if r.length ≥ 2 && r.data.head? = some '"' && r.data.getLast? = some '"' then
    ⟨r.data.drop 1 |>.dropLast⟩
  else r

/-- Source `getSingularForm`: strip exactly one trailing `s` when the string has
length greater than 1 and ends in `s`; otherwise unchanged. -/
def getSingularForm (plural : String) : String :=
  if plural.length > 1 && plural.data.getLast? = some 's' then
    ⟨plural.data.dropLast⟩
  else plural

/-- C `tolower` on ASCII letters (as applied via `std::transform`). -/
def asciiLower (c : Char) : Char :=
  if 'A' ≤ c && c ≤ 'Z' then Char.ofNat (c.toNat + 32) else c

def lowerString (s : String) : String := ⟨s.data.map asciiLower⟩

/-- Models `str.find(c) != npos` for a single character. -/
def containsChar (s : String) (c : Char) : Bool := s.data.contains c

/-- Whether `pat` occurs at the head of `l`. -/
def charsHaveHead : List Char → List Char → Bool
  | [], _ => true
  | _ :: _, [] => false
  | p :: ps, c :: cs => p = c && charsHaveHead ps cs

/-- Whether `pat` occurs anywhere in `l` (`std::string::find(pat) != npos`). -/
def charsContain (pat : List Char) : List Char → Bool
  | [] => charsHaveHead pat []
  | c :: cs => charsHaveHead pat (c :: cs) || charsContain pat cs

/-- Models `s.find(pat) != npos` for a substring pattern. -/
def containsSub (s pat : String) : Bool := charsContain pat.data s.data

/-- Models `col.size() >= 3 && col.compare(col.size()-3, 3, "_id") == 0`. -/
def endsWithUnderscoreId (s : String) : Bool :=
  s.length ≥ 3 && charsHaveHead ['_', 'i', 'd'] (s.data.drop (s.length - 3))

/-- Models `col.substr(0, col.size() - 3)`. -/
def dropLast3 (s : String) : String := ⟨s.data.take (s.length - 3)⟩

/-- Lexicographic comparison on character lists (ASCII-faithful model of
the byte-wise `std::string` `operator<`). -/
def charsLt : List Char → List Char → Bool
  | [], [] => false
  | [], _ :: _ => true
  | _ :: _, [] => false
  | a :: as, b :: bs => if a < b then true else if b < a then false else charsLt as bs

/-- Models `std::string` `operator<`. -/
def strLt (a b : String) : Bool := charsLt a.data b.data

/-- Models `std::string` `operator<=`. -/
def strLe (a b : String) : Bool := !strLt b a

/-- The quote-doubling loop inside `quoteCSVField`. -/
def escapeQuotes : List Char → List Char
  | [] => []
  | c :: rest =>
    if c = '"' then '"' :: '"' :: escapeQuotes rest else c :: escapeQuotes rest

/-- Source `CSVGenerator::quoteCSVField` (final variant): trim the field, then wrap
in double quotes with embedded quotes doubled when the trimmed field contains
a comma, a double quote or a newline; otherwise return the trimmed field. -/
def quoteCSVField (field : String) : String :=
  let trimmedField := trimString field
  if containsChar trimmedField ',' || containsChar trimmedField '"' ||
      containsChar trimmedField '\n' then
    ⟨'"' :: (escapeQuotes trimmedField.data ++ ['"'])⟩
  else trimmedField

/-! ### Scanner string decoding (`process_string` in the flex specification)

`process_string` receives the matched string literal including the two
surrounding quotes and walks the characters strictly between them; here
`processStringChars` works directly on that inner character list. -/

/-- C hex digit test as used by `strtol(..., 16)`. -/
def isHexDigitC (c : Char) : Bool :=
  ('0' ≤ c && c ≤ '9') || ('a' ≤ c && c ≤ 'f') || ('A' ≤ c && c ≤ 'F')

def hexDigitValC (c : Char) : Nat :=
  if '0' ≤ c && c ≤ '9' then c.toNat - '0'.toNat
  else if 'a' ≤ c && c ≤ 'f' then c.toNat - 'a'.toNat + 10
  else if 'A' ≤ c && c ≤ 'F' then c.toNat - 'A'.toNat + 10
  else 0

/-- Hex value of the longest hex-digit prefix (the digit-consuming loop of
`strtol` base 16; overflow clamping is unreachable for the four-character
inputs this program ever passes). -/
def hexPrefixVal (l : List Char) : Nat :=
  (l.takeWhile isHexDigitC).foldl (fun a c => 16 * a + hexDigitValC c) 0

/-- The optional `0x`/`0X` marker that `strtol` accepts before the digits in
base 16 (ISO C 7.22.1.4).  Dropping the two marker characters unconditionally
is value-correct even when no hex digit follows them: the subject sequence is
then just the initial `0` and both readings yield 0. -/
def strip0x (l : List Char) : List Char :=
  match l with
  | c0 :: c1 :: rest => if c0 = '0' ∧ (c1 = 'x' ∨ c1 = 'X') then rest else l
  | _ => l

/-- Models `strtol(hex, nullptr, 16)`: skip leading spaces, optional sign,
optional `0x`/`0X` marker, then the longest hex-digit prefix (0 when there is
none). -/
def cstrtol16 (l : List Char) : Int :=
  match l.dropWhile isCSpace with
  | [] => 0
  | c :: rest =>
    if c = '+' then (hexPrefixVal (strip0x rest) : Int)
    else if c = '-' then -(hexPrefixVal (strip0x rest) : Int)
    else (hexPrefixVal (strip0x (c :: rest)) : Int)

/-- Models `static_cast<char>(code)` appended to a `std::string`: the low byte of
the two's-complement representation. -/
def byteOf (code : Int) : Char := Char.ofNat (code % 256).toNat

/-- UTF-8 re-encoding of a decoded `\uXXXX` code point, exactly as in the
scanner: one byte when `code <= 0x7F`, two when `code <= 0x7FF`, else three. -/
def utf8bytes (code : Int) : List Char :=
  if code ≤ 0x7F then [byteOf code]
  else if code ≤ 0x7FF then
    [Char.ofNat (0xC0 ||| (code.toNat >>> 6)),
     Char.ofNat (0x80 ||| (code.toNat &&& 0x3F))]
  else
    [Char.ofNat (0xE0 ||| (code.toNat >>> 12)),
     Char.ofNat (0x80 ||| ((code.toNat >>> 6) &&& 0x3F)),
     Char.ofNat (0x80 ||| (code.toNat &&& 0x3F))]

/-- The switch arms of the escape handler for the single-character escapes. -/
def simpleEscape (e : Char) : Option Char :=
  if e = 'n' then some '\n'
  else if e = 'r' then some '\r'
  else if e = 't' then some '\t'
  else if e = 'b' then some '\x08'
  else if e = 'f' then some '\x0c'
  else if e = '\\' then some '\\'
  else if e = '"' then some '"'
  else if e = '/' then some '/'
  else none

/-- The decoding loop of `process_string`, over the characters strictly
between the surrounding quotes.  A backslash consumes the next character;
a `u` escape with at least four characters remaining decodes those four via
`strtol` base 16 and re-encodes in UTF-8, with fewer than four remaining it
emits a literal `?` and resumes right after the `u`; an unrecognized escape
is copied through with the backslash dropped; a trailing lone backslash
ends the loop. -/
def processStringChars : List Char → List Char
  | [] => []
  | c :: rest =>
    if c = '\\' then
      match rest with
      | [] => []
      | e :: rest2 =>
        match simpleEscape e with
        | some d => d :: processStringChars rest2
        | none =>
          if e = 'u' then
            if 4 ≤ rest2.length then
              utf8bytes (cstrtol16 (rest2.take 4)) ++ processStringChars (rest2.drop 4)
            else '?' :: processStringChars rest2
          else e :: processStringChars rest2
    else c :: processStringChars rest
  termination_by l => l.length
  decreasing_by all_goals (simp_wf <;> omega)

/-- Source `process_string` on the decoded contents of a string literal (the
characters between the opening and closing quote). -/
def process_string (inner : String) : String := ⟨processStringChars inner.data⟩

/-! ### AST data model (ast.h / ast.cpp)

Object and Array nodes carry the placement metadata fields that the C++
passes mutate in place; the Lean passes return updated trees instead.
`KVList` and `NodeList` are the pair and element sequences (specialized
list types so that the tree traversals are structurally recursive). -/

/-- Metadata fields of `ObjectNode` (ast.h). -/
structure OMeta where
  tableName : String := ""
  id : Int := -1
  parentId : Int := -1
  parentTable : String := ""
  parentKey : String := ""
  arrayIndex : Int := -1
deriving DecidableEq

/-- Metadata fields of `ArrayNode` (ast.h). -/
structure AMeta where
  parentKey : String := ""
  parentId : Int := -1
  parentTable : String := ""
deriving DecidableEq

mutual
/-- AST node variants (ast.h): Object, Array, String, Number (literal text),
Boolean, Null. -/
inductive Node where
  | obj : OMeta → KVList → Node
  | arr : AMeta → NodeList → Node
  | str : String → Node
  | num : String → Node
  | boolv : Bool → Node
  | null : Node
/-- The ordered key/value pairs of an object node. -/
inductive KVList where
  | nil : KVList
  | cons : String → Node → KVList → KVList
/-- The ordered elements of an array node. -/
inductive NodeList where
  | nil : NodeList
  | cons : Node → NodeList → NodeList
end

/-- Whether a node is an Object (`getType() == NodeType::OBJECT`). -/
def Node.isObjNode : Node → Bool
  | .obj _ _ => true
  | _ => false

/-- Whether a node is a scalar, i.e. neither Object nor Array. -/
def Node.isScalarNode : Node → Bool
  | .obj _ _ => false
  | .arr _ _ => false
  | _ => true

def KVList.keys : KVList → List String
  | .nil => []
  | .cons k _ rest => k :: KVList.keys rest

def KVList.toPairList : KVList → List (String × Node)
  | .nil => []
  | .cons k v rest => (k, v) :: KVList.toPairList rest

def NodeList.toNodes : NodeList → List Node
  | .nil => []
  | .cons e rest => e :: NodeList.toNodes rest

def NodeList.lengthN : NodeList → Nat
  | .nil => 0
  | .cons _ rest => 1 + NodeList.lengthN rest

/-- Insertion into a sorted list of strings (`std::sort` result is the
sorted sequence of the keys). -/
def insertSortedString (s : String) : List String → List String
  | [] => [s]
  | t :: rest => if strLe s t then s :: t :: rest else t :: insertSortedString s rest

def sortStrings (l : List String) : List String :=
  l.foldr insertSortedString []

/-- `ObjectNode::getKeySignature`: the object's own keys, sorted and joined
with commas. -/
def keySignatureOfKeys (keys : List String) : String :=
  String.intercalate "," (sortStrings keys)

/-- Key signature of a node: the sorted comma-joined keys for an Object. -/
def Node.keySignature : Node → String
  | .obj _ pairs => keySignatureOfKeys pairs.keys
  | _ => ""

/-- `ArrayNode::isArrayOfObjects`: non-empty, all elements Objects, and when
there is more than one element, all key signatures equal the first one. -/
def isArrayOfObjects (elems : NodeList) : Bool :=
  match elems with
  | .nil => false
  | .cons first rest =>
    (first :: rest.toNodes).all Node.isObjNode &&
    (rest.toNodes).all (fun e => e.keySignature = first.keySignature)

/-- `ArrayNode::isArrayOfScalars`: non-empty and every element is a
String, Number, Boolean or Null. -/
def isArrayOfScalars (elems : NodeList) : Bool :=
  match elems with
  | .nil => false
  | _ => elems.toNodes.all Node.isScalarNode

/-! ### Global identifier assignment (`AST::assignIds`, ast.cpp)

The C++ pass mutates `parentId` / `parentTable` / `parentKey` on a child
just before recursing into it; here the parent passes those three fields as
an explicit override applied at the start of the child's visit.  The
`tableIds` map threaded by the C++ signature is never read or written and
is omitted. -/

/-- Parent-linkage override (`parentId`, `parentTable`, `parentKey`)
written by the parent before the child's `assignIds` runs. -/
structure ParentLink where
  pid : Int
  ptable : String
  pkey : String

def OMeta.applyLink (m : OMeta) : Option ParentLink → OMeta
  | none => m
  | some l => { m with parentId := l.pid, parentTable := l.ptable, parentKey := l.pkey }

def AMeta.applyLink (a : AMeta) : Option ParentLink → AMeta
  | none => a
  | some l => { a with parentId := l.pid, parentTable := l.ptable, parentKey := l.pkey }

/-- `ObjectNode::assignIds` table-name rule: "root" when no parent table,
else the parent key when non-empty, else `parentTable_nextId`. -/
def assignTableName (m : OMeta) (nextId : Int) : String :=
  if m.parentTable = "" then "root"
  else if m.parentKey ≠ "" then m.parentKey
  else m.parentTable ++ "_" ++ toString nextId

/-- The synthesized per-index parent key for an element of an
array-of-objects: `item_<index>` when the array has no key, else
`<parentKey>_<index>`. -/
def elemParentKey (pkey : String) (index : Nat) : String :=
  if pkey = "" then "item_" ++ toString index
  else pkey ++ "_" ++ toString index

mutual
/-- `AstNode::assignIds` with the pending parent-link override; returns the
updated node and the next counter value.  Leaves return the counter
unchanged. -/
def assignIdsNode (ov : Option ParentLink) : Node → Int → Node × Int
  | .obj m pairs, nextId =>
    let m0 := m.applyLink ov
    let tn := assignTableName m0 nextId
    let m1 := { m0 with tableName := tn, id := nextId }
    let r := assignIdsPairs tn nextId pairs (nextId + 1)
    (.obj m1 r.1, r.2)
  | .arr a elems, nextId =>
    let a0 := a.applyLink ov
    if isArrayOfObjects elems then
      let r := assignIdsElems (a0.parentId, a0.parentTable, a0.parentKey) 0 elems nextId
      (.arr a0 r.1, r.2)
    else
      (.arr a0 elems, nextId)
  | n, nextId => (n, nextId)
/-- The pair loop of `ObjectNode::assignIds`: Object- and Array-valued
pairs receive the parent link and are recursed into; scalar pairs are
skipped. -/
def assignIdsPairs (tn : String) (pid : Int) : KVList → Int → KVList × Int
  | .nil, n => (.nil, n)
  | .cons k v rest, n =>
    match v with
    | .obj mv pv =>
      let r1 := assignIdsNode (some ⟨pid, tn, k⟩) (.obj mv pv) n
      let r2 := assignIdsPairs tn pid rest r1.2
      (.cons k r1.1 r2.1, r2.2)
    | .arr av ev =>
      let r1 := assignIdsNode (some ⟨pid, tn, k⟩) (.arr av ev) n
      let r2 := assignIdsPairs tn pid rest r1.2
      (.cons k r1.1 r2.1, r2.2)
    | _ =>
      let r1 := assignIdsPairs tn pid rest n
      (.cons k v r1.1, r1.2)
/-- The element loop of `ArrayNode::assignIds` (array-of-objects case):
each Object element receives the array's parent id and table and a
synthesized per-index key; non-Object elements only advance the index. -/
def assignIdsElems (link : Int × String × String) (index : Nat) :
    NodeList → Int → NodeList × Int
  | .nil, n => (.nil, n)
  | .cons e rest, n =>
    match e with
    | .obj me pe =>
      let r1 :=
        assignIdsNode (some ⟨link.1, link.2.1, elemParentKey link.2.2 index⟩)
          (.obj me pe) n
      let r2 := assignIdsElems link (index + 1) rest r1.2
      (.cons r1.1 r2.1, r2.2)
    | _ =>
      let r1 := assignIdsElems link (index + 1) rest n
      (.cons e r1.1, r1.2)
end

/-- `AST::assignIds`: run the pass over the root with counter 1 and no
parent override. -/
def astAssignIds (root : Node) : Node :=
  (assignIdsNode none root 1).1

/-! ### Engine state (csv_generator.h)

`tables` is `std::map<std::string, std::shared_ptr<TableSchema>>`, modelled
as an association list kept sorted by key (the iteration order of the map);
`mergedTables` is a `std::set<std::string>`, modelled as a sorted list; the
two mapping tables are maps from parent table name to the vector of child
table names. -/

/-- `TableSchema` (csv_generator.h): display name, ordered columns, rows. -/
structure TableSchema where
  name : String
  columns : List String
  rows : List (List String)
deriving DecidableEq

/-- Lookup in a string-keyed map (`tables.find(k)`). -/
def mapFind (m : List (String × α)) (k : String) : Option α :=
  match m with
  | [] => none
  | (k1, v1) :: rest => if k1 = k then some v1 else mapFind rest k

/-- Sorted insert-or-overwrite (`tables[k] = v`). -/
def mapInsert (k : String) (v : α) : List (String × α) → List (String × α)
  | [] => [(k, v)]
  | (k1, v1) :: rest =>
    if strLt k k1 then (k, v) :: (k1, v1) :: rest
    else if k = k1 then (k, v) :: rest
    else (k1, v1) :: mapInsert k v rest

/-- Update the value at `k` when present (mutation through an existing
iterator / shared pointer). -/
def mapModify (k : String) (f : α → α) : List (String × α) → List (String × α)
  | [] => []
  | (k1, v1) :: rest =>
    if k1 = k then (k1, f v1) :: rest else (k1, v1) :: mapModify k f rest

/-- Whether the map contains key `k` (`m.count(k)` as a boolean). -/
def mapHasKey (m : List (String × α)) (k : String) : Bool :=
  (mapFind m k).isSome

/-- Sorted insert into a `std::set<std::string>` (no duplicates). -/
def setInsertString (s : String) : List String → List String
  | [] => [s]
  | t :: rest =>
    if strLt s t then s :: t :: rest
    else if s = t then t :: rest
    else t :: setInsertString s rest

/-- Engine state mutated across the phases of one `generateCSV` run. -/
structure EngineState where
  tables : List (String × TableSchema) := []
  mergedTables : List String := []
  objArrayMappings : List (String × List String) := []
  scalarArrayMappings : List (String × List String) := []
deriving DecidableEq

/-- `mappings[parent].push_back(child)` for the two relationship maps. -/
def pushMapping (parent child : String) (m : List (String × List String)) :
    List (String × List String) :=
  match mapFind m parent with
  | some l => mapInsert parent (l ++ [child]) m
  | none => mapInsert parent [child] m

/-! ### Phase 1 — structural analysis (`analyzeAst` and friends) -/

/-- The initial column set of a freshly created object table: `id` followed
by one column per scalar-valued key, in first-seen order, keys trimmed. -/
def scalarColumnsOf : KVList → List String
  | .nil => []
  | .cons k v rest =>
    if v.isScalarNode then trimString k :: scalarColumnsOf rest
    else scalarColumnsOf rest

/-- Schema creation in `analyzeObject` when no schema exists for the
table name yet. -/
def createSchemaIfMissing (tn : String) (pairs : KVList) (st : EngineState) :
    EngineState :=
  match mapFind st.tables tn with
  | some _ => st
  | none =>
    let schema : TableSchema :=
      { name := tn, columns := "id" :: scalarColumnsOf pairs, rows := [] }
    { st with tables := mapInsert tn schema st.tables }

/-- `tables[tableName]->columns.push_back(col)`. -/
def pushColumn (tn col : String) (st : EngineState) : EngineState :=
  { st with tables := mapModify tn (fun sch => { sch with columns := sch.columns ++ [col] }) st.tables }

/-- The column-union loop at the end of each element visit in the
array-of-objects branch of `analyzeArray`: append each scalar pair's
trimmed key that is not yet a column of the array table. -/
def unionScalarColumns (tn : String) (pairs : KVList) (st : EngineState) :
    EngineState :=
  match pairs with
  | .nil => st
  | .cons k v rest =>
    if v.isScalarNode then
      let colName := trimString k
      let st1 :=
        match mapFind st.tables tn with
        | some sch =>
          if sch.columns.contains colName then st
          else pushColumn tn colName st
        | none => st
      unionScalarColumns tn rest st1
    else unionScalarColumns tn rest st

/-- Schema creation for an array-of-objects table in `analyzeArray`
(unconditional overwrite `tables[tableName] = schema`). -/
def createObjArraySchema (tn parentTable : String) (st : EngineState) :
    EngineState :=
  let schema : TableSchema :=
    { name := tn,
      columns := ["id", getSingularForm parentTable ++ "_id", "seq"],
      rows := [] }
  { st with
      tables := mapInsert tn schema st.tables,
      objArrayMappings := pushMapping parentTable tn st.objArrayMappings }

/-- Schema creation for an array-of-scalars table in `analyzeArray`
(unconditional overwrite). -/
def createScalarArraySchema (tn parentTable : String) (st : EngineState) :
    EngineState :=
  let schema : TableSchema :=
    { name := tn,
      columns := ["id", getSingularForm parentTable ++ "_id", "seq", "value"],
      rows := [] }
  { st with
      tables := mapInsert tn schema st.tables,
      scalarArrayMappings := pushMapping parentTable tn st.scalarArrayMappings }

mutual
/-- The pair loop of `analyzeObject` over the pairs of a table `tn` object
with id `pid`: nested Objects get parent linkage, are analyzed, and a
foreign-key column `<singular(childTable)>_id` is appended to the parent
table; Arrays get parent linkage and are analyzed with their trimmed key
(the body of `analyzeArray` is inlined at the Array arm so the traversal
stays structurally recursive). -/
def analyzePairs (tn : String) (pid : Int) : KVList → EngineState → KVList × EngineState
  | .nil, st => (.nil, st)
  | .cons k v rest, st =>
    match v with
    | .obj mv pv =>
      let mv1 := { mv with parentTable := tn, parentKey := trimString k, parentId := pid }
      let tnC := if mv1.parentKey = "" then "root" else mv1.parentKey
      let mv2 := { mv1 with tableName := tnC }
      let st1 := createSchemaIfMissing tnC pv st
      let (pv1, st2) := analyzePairs tnC mv2.id pv st1
      let fkCol := getSingularForm tnC ++ "_id"
      let st3 := pushColumn tn fkCol st2
      let (rest1, st4) := analyzePairs tn pid rest st3
      (.cons k (.obj mv2 pv1) rest1, st4)
    | .arr av ev =>
      let av1 := { av with parentTable := tn, parentKey := trimString k, parentId := pid }
      let (ev1, st1) :=
        if isArrayOfObjects ev then
          let tnA := trimString av1.parentKey
          let stA := createObjArraySchema tnA av1.parentTable st
          analyzeObjElems av1 tnA 0 ev stA
        else if isArrayOfScalars ev then
          (ev, createScalarArraySchema (trimString av1.parentKey) av1.parentTable st)
        else (ev, st)
      let (rest1, st2) := analyzePairs tn pid rest st1
      (.cons k (.arr av1 ev1) rest1, st2)
    | _ =>
      let (rest1, st1) := analyzePairs tn pid rest st
      (.cons k v rest1, st1)
/-- The element loop of the array-of-objects branch of `analyzeArray`:
each element gets its linkage and table name, is visited as an object of
table `tn`, and then contributes its unseen scalar keys to the column
union of the array table. -/
def analyzeObjElems (a : AMeta) (tn : String) (index : Int) :
    NodeList → EngineState → NodeList × EngineState
  | .nil, st => (.nil, st)
  | .cons e rest, st =>
    match e with
    | .obj me pe =>
      let me1 := { me with parentTable := a.parentTable, parentKey := tn,
                           parentId := a.parentId, tableName := tn,
                           arrayIndex := index }
      let st1 := createSchemaIfMissing tn pe st
      let (pe1, st2) := analyzePairs tn me1.id pe st1
      let st3 := unionScalarColumns tn pe st2
      let (rest1, st4) := analyzeObjElems a tn (index + 1) rest st3
      (.cons (.obj me1 pe1) rest1, st4)
    | _ =>
      let (rest1, st1) := analyzeObjElems a tn (index + 1) rest st
      (.cons e rest1, st1)
end

/-- The body of `analyzeArray` as a standalone dispatcher (used for a root
Array; inside `analyzePairs` the same branch structure appears inline):
the array-of-objects branch creates the child table keyed by the array's
own trimmed `parentKey` and visits every element; the array-of-scalars
branch creates the four-column table keyed by the trimmed `parentKey`
argument; other shapes are ignored. -/
def analyzeArrayCases (a : AMeta) (elems : NodeList) (parentKey : String)
    (st : EngineState) : NodeList × EngineState :=
  if isArrayOfObjects elems then
    let tn := trimString a.parentKey
    let st1 := createObjArraySchema tn a.parentTable st
    analyzeObjElems a tn 0 elems st1
  else if isArrayOfScalars elems then
    (elems, createScalarArraySchema (trimString parentKey) a.parentTable st)
  else (elems, st)

/-- Source `CSVGenerator::analyzeAst`: dispatch on the root node; Objects are
analyzed with table name from their (empty) parent key, Arrays with the
literal parent-key argument "root"; scalars are ignored. -/
def analyzeAst (n : Node) (st : EngineState) : Node × EngineState :=
  match n with
  | .obj m pairs =>
    let tn := if m.parentKey = "" then "root" else m.parentKey
    let m1 := { m with tableName := tn }
    let st1 := createSchemaIfMissing tn pairs st
    let (pairs1, st2) := analyzePairs tn m1.id pairs st1
    (.obj m1 pairs1, st2)
  | .arr a elems =>
    let (elems1, st1) := analyzeArrayCases a elems "root" st
    (.arr a elems1, st1)
  | _ => (n, st)

/-! ### Phase 2 — table renaming (`renameTablesBasedOnContent`) -/

/-- Root-table naming scan: the first column whose lower-cased form is
neither `id` nor contains `_id` is lower-cased and pluralized; otherwise
the literal fallback `entities`. -/
def rootNewName : List String → String
  | [] => "entities"
  | col :: rest =>
    let lowerCol := lowerString col
    if lowerCol ≠ "id" && !containsSub lowerCol "_id" then lowerCol ++ "s"
    else rootNewName rest

/-- Split at the first underscore (`name.find('_')`), returning the parts
before and after it when found. -/
def splitAtUnderscore (s : String) : Option (String × String) :=
  match s.data.span (fun c => c ≠ '_') with
  | (before, _ :: after) => some (⟨before⟩, ⟨after⟩)
  | (_, []) => none

/-- Lookup in the `oldToNewNames` map built during the renaming loop. -/
def assocFind (m : List (String × String)) (k : String) : Option String :=
  match m with
  | [] => none
  | (k1, v1) :: rest => if k1 = k then some v1 else assocFind rest k

/-- The new name chosen for one table in the renaming loop: root tables get
`rootNewName` of their columns; a name containing an underscore becomes its
suffix, pluralized when it does not already end in `s` and the original
name is a key of either relationship map; a name without an underscore is
unchanged.  (The loop also computes a substituted prefix from
`oldToNewNames`, but never uses it.) -/
def newNameFor (st : EngineState) (name : String) (sch : TableSchema) : String :=
  if name = "root" then rootNewName sch.columns
  else
    match splitAtUnderscore name with
    | some (_, suffix) =>
      if suffix.data.getLast? ≠ some 's' &&
          (mapHasKey st.scalarArrayMappings name || mapHasKey st.objArrayMappings name) then
        suffix ++ "s"
      else suffix
    | none => name

/-- The first loop of `renameTablesBasedOnContent`, in map iteration order:
record `old -> new` and rewrite each schema's display name. -/
def renameLoop (st : EngineState) :
    List (String × TableSchema) → List (String × String) →
    List (String × TableSchema) × List (String × String)
  | [], acc => ([], acc)
  | (name, sch) :: rest, acc =>
    let newName := newNameFor st name sch
    let acc1 := acc ++ [(name, newName)]
    let (rest1, acc2) := renameLoop st rest acc1
    ((name, { sch with name := newName }) :: rest1, acc2)

/-- The foreign-key rewriting step at the end of the renaming phase: a
column containing `_id` (and not literally `id`) whose stem, pluralized,
matches some table's old name is rewritten to the singular of that table's
new name plus `_id`. -/
def renameFkColumn (oldToNew : List (String × String)) (col : String) : String :=
  if containsSub col "_id" && col ≠ "id" then
    let parentName := dropLast3 col
    let pluralParent := parentName ++ "s"
    match assocFind oldToNew pluralParent with
    | some nn => getSingularForm nn ++ "_id"
    | none => col
  else col

/-- Source `CSVGenerator::renameTablesBasedOnContent`. -/
def renameTablesBasedOnContent (st : EngineState) : EngineState :=
  let (tables1, oldToNew) := renameLoop st st.tables []
  let tables2 :=
    tables1.map (fun p =>
      (p.1, { p.2 with columns := p.2.columns.map (renameFkColumn oldToNew) }))
  { st with tables := tables2 }

/-! ### Phase 3 — relationship resolution (`processRelationships`) and
table merging (`mergeTable`) -/

/-- Replace the first occurrence of `target` in a list (the
break-after-first-match loop renaming a `parent_id` column). -/
def replaceFirst (target repl : String) : List String → List String
  | [] => []
  | c :: rest =>
    if c = target then repl :: rest else c :: replaceFirst target repl rest

/-- Source `CSVGenerator::mergeTable`: when both tables exist, rewrite every
column literally named `<source>_id` to `<target>_id` across all tables and
add the source key to the merged set; otherwise do nothing. -/
def mergeTable (sourceTable targetTable : String) (st : EngineState) : EngineState :=
  match mapFind st.tables sourceTable, mapFind st.tables targetTable with
  | some _, some _ =>
    { st with
        tables := st.tables.map (fun p =>
          let cols1 := p.2.columns.map (fun col =>
            if col = sourceTable ++ "_id" then targetTable ++ "_id" else col)
          (p.1, { p.2 with columns := cols1 })),
        mergedTables := setInsertString sourceTable st.mergedTables }
  | _, _ => st

/-- The `find_if` over the tables map locating a table whose key or display
name equals `nm` (first match in map iteration order). -/
def findTableKeyByEitherName (nm : String) (tables : List (String × TableSchema)) :
    Option String :=
  match tables with
  | [] => none
  | (k, sch) :: rest =>
    if k = nm || sch.name = nm then some k
    else findTableKeyByEitherName nm rest

/-- Source `CSVGenerator::processRelationships`: rename the `parent_id`
column of every table whose key contains an underscore to
`<singular(prefix)>_id`, then merge `authors` into `users` when tables with
those keys or display names both exist.  (The table-signature grouping the
function also computes feeds only the unused `similarTables` map and has no
observable effect, so it is not modelled.) -/
def processRelationships (st : EngineState) : EngineState :=
  let tables1 :=
    st.tables.map (fun p =>
      match splitAtUnderscore p.1 with
      | some (parentName, _) =>
        let cols1 := replaceFirst "parent_id" (getSingularForm parentName ++ "_id") p.2.columns
        (p.1, { p.2 with columns := cols1 })
      | none => p)
  let st1 := { st with tables := tables1 }
  match findTableKeyByEitherName "users" st1.tables,
        findTableKeyByEitherName "authors" st1.tables with
  | some usersKey, some authorsKey => mergeTable authorsKey usersKey st1
  | _, _ => st1

/-! ### Phase 4 — id-column normalization (inline in `generateCSV`) -/

/-- Remove the first occurrence of `target` from a list, if present. -/
def removeFirst (target : String) : List String → List String
  | [] => []
  | c :: rest => if c = target then rest else c :: removeFirst target rest

/-- The per-table loop in `generateCSV` between the phases and row
generation: when the `id` column is not already first (including when it is
absent from a non-empty column list), the first `id` occurrence is removed
and `id` is inserted at the front; then the first `root_id` column, if any,
is removed. -/
def normalizeIdColumns (st : EngineState) : EngineState :=
  { st with tables := st.tables.map (fun p =>
      let cols := p.2.columns
      let cols1 :=
        match cols with
        | [] => []
        | c :: rest => if c = "id" then c :: rest else "id" :: removeFirst "id" (c :: rest)
      (p.1, { p.2 with columns := removeFirst "root_id" cols1 })) }

/-- Source `CSVGenerator::getTableNames`: the display names of all tables
whose key is not in the merged set, in map iteration order. -/
def getTableNames (st : EngineState) : List String :=
  (st.tables.filter (fun p => !st.mergedTables.contains p.1)).map (fun p => p.2.name)

/-! ### Phase 5 — row generation (`generateRowsFromAst` and friends)

Main constructs the engine with the default `streaming = false`, so the
batch path is modelled: each completed row is appended to its schema's row
list and all files are written at the end of `generateCSV`. -/

/-- Index of the first occurrence of a column name
(`std::distance(begin, std::find(begin, end, name))` when found). -/
def findColIdx (cols : List String) (name : String) : Option Nat :=
  match cols with
  | [] => none
  | c :: rest =>
    if c = name then some 0
    else (findColIdx rest name).map (· + 1)

/-- Write `val` at an optional index. -/
def setAt (row : List String) (idx : Option Nat) (val : String) : List String :=
  match idx with
  | some i => row.set i val
  | none => row

/-- The start of a row in `generateRowsFromObject`: empty fields sized to
the column count, then the `id`, parent foreign-key and `seq` cells. -/
def objRowBase (cols : List String) (m : OMeta) : List String :=
  let row0 := List.replicate cols.length ""
  let row1 := setAt row0 (findColIdx cols "id") (toString m.id)
  let row2 :=
    if m.parentId ≥ 0 then
      setAt row1 (findColIdx cols (getSingularForm m.parentTable ++ "_id"))
        (toString m.parentId)
    else row1
  if m.arrayIndex ≥ 0 then
    setAt row2 (findColIdx cols "seq") (toString m.arrayIndex)
  else row2

/-- Formatting of a scalar pair value in `generateRowsFromObject`:
quoted/escaped text for String, the preserved literal for Number,
`true`/`false` for Boolean, empty for anything else. -/
def scalarValueOf : Node → String
  | .str v => quoteCSVField v
  | .num v => v
  | .boolv b => if b then "true" else "false"
  | _ => ""

/-- The scalar-pair loop of `generateRowsFromObject`: each scalar pair
whose trimmed key names an existing column writes its formatted value
there (later pairs with the same key overwrite earlier ones). -/
def scalarPass (cols : List String) : KVList → List String → List String
  | .nil, row => row
  | .cons k v rest, row =>
    let row1 :=
      match findColIdx cols (trimString k) with
      | some i => if v.isScalarNode then row.set i (scalarValueOf v) else row
      | none => row
    scalarPass cols rest row1

/-- Append one completed row to the schema stored at key `tn`
(batch mode `schema->rows.push_back(row)`). -/
def appendRow (tn : String) (row : List String) (st : EngineState) : EngineState :=
  { st with tables := mapModify tn (fun sch => { sch with rows := sch.rows ++ [row] }) st.tables }

/-- Append a batch of rows to the schema stored at key `tn`. -/
def appendRows (tn : String) (newRows : List (List String)) (st : EngineState) : EngineState :=
  { st with tables := mapModify tn (fun sch => { sch with rows := sch.rows ++ newRows }) st.tables }

/-- The `find`-by-display-name fallback in the array-of-scalars branch of
`generateRowsFromArray` (first table in map order whose display name is
`nm`). -/
def findTableKeyByDisplayName (nm : String) (tables : List (String × TableSchema)) :
    Option String :=
  match tables with
  | [] => none
  | (k, sch) :: rest =>
    if sch.name = nm then some k else findTableKeyByDisplayName nm rest

/-- Formatting of one array-of-scalars element value: trimmed unquoted text
for String, trimmed literal for Number, trimmed `true`/`false` for Boolean,
empty for Null (and for the unreachable container kinds). -/
def scalarElemValue : Node → String
  | .str v => trimString (unquote v)
  | .num v => trimString v
  | .boolv b => trimString (if b then "true" else "false")
  | _ => ""

/-- One row of a scalar-array table: `id` is the 1-based position, the
parent cell is the array's parent id, `seq` the 0-based position, `value`
the formatted element. -/
def buildScalarRow (cols : List String) (idIdx parentIdIdx seqIdx valueIdx : Option Nat)
    (pid : Int) (i : Nat) (elem : Node) : List String :=
  let row0 := List.replicate cols.length ""
  let row1 := setAt row0 idIdx (toString (i + 1))
  let row2 := setAt row1 parentIdIdx (toString pid)
  let row3 := setAt row2 seqIdx (toString i)
  setAt row3 valueIdx (scalarElemValue elem)

/-- The element loop of the array-of-scalars branch, carried by the loop
counter `i`. -/
def buildScalarRowsFrom (cols : List String)
    (idIdx parentIdIdx seqIdx valueIdx : Option Nat) (pid : Int) (i : Nat) :
    List Node → List (List String)
  | [] => []
  | e :: rest =>
    buildScalarRow cols idIdx parentIdIdx seqIdx valueIdx pid i e ::
      buildScalarRowsFrom cols idIdx parentIdIdx seqIdx valueIdx pid (i + 1) rest

/-- All rows of one array-of-scalars visit, in element order (loop counter
starting at 0). -/
def buildScalarRows (cols : List String) (idIdx parentIdIdx seqIdx valueIdx : Option Nat)
    (pid : Int) (elems : List Node) : List (List String) :=
  buildScalarRowsFrom cols idIdx parentIdIdx seqIdx valueIdx pid 0 elems

/-- The array-of-scalars branch of `generateRowsFromArray`: derive the
table name (`<parentTable>_<parentKey>` overridden by the special cases for
`genres`/`genre` and `tags`), fall back to a display-name search, give up
when no table is found, and otherwise append one row per element using the
first matching `id` / parent / `seq`-or-`index` / `value` columns. -/
def rowsFromScalarArray (a : AMeta) (elems : NodeList) (st : EngineState) : EngineState :=
  let tableName0 := a.parentTable ++ "_" ++ a.parentKey
  let tableName1 :=
    if a.parentKey = "genres" || a.parentKey = "genre" then "genre"
    else if a.parentKey = "tags" then "tags"
    else tableName0
  let tableName2 :=
    match mapFind st.tables tableName1 with
    | some _ => tableName1
    | none =>
      match findTableKeyByDisplayName tableName1 st.tables with
      | some k => k
      | none => tableName1
  match mapFind st.tables tableName2 with
  | none => st
  | some sch =>
    let idIdx := findColIdx sch.columns "id"
    let parentIdIdx :=
      match findColIdx sch.columns (getSingularForm a.parentTable ++ "_id") with
      | some i => some i
      | none => findColIdx sch.columns "parent_id"
    let seqIdx :=
      match findColIdx sch.columns "seq" with
      | some i => some i
      | none => findColIdx sch.columns "index"
    let valueIdx := findColIdx sch.columns "value"
    appendRows tableName2
      (buildScalarRows sch.columns idIdx parentIdIdx seqIdx valueIdx a.parentId elems.toNodes)
      st

mutual
/-- The nested-structure loop of `generateRowsFromObject`, carrying the
parent row being filled: an Object-valued pair writes the child's id into
the parent row's `<singular(childTable)>_id` cell and then generates the
child's own rows (the body of `generateRowsFromObject` inlined); an
Array-valued pair generates array rows (`generateRowsFromArray` inlined). -/
def rowsPairs (cols : List String) : KVList → List String → EngineState → List String × EngineState
  | .nil, row, st => (row, st)
  | .cons _ v rest, row, st =>
    match v with
    | .obj mv pv =>
      let row1 := setAt row (findColIdx cols (getSingularForm mv.tableName ++ "_id"))
        (toString mv.id)
      let st1 :=
        if mv.tableName = "" then st
        else
          match mapFind st.tables mv.tableName with
          | none => st
          | some schC =>
            let base := scalarPass schC.columns pv (objRowBase schC.columns mv)
            let (rowC, st2) := rowsPairs schC.columns pv base st
            appendRow mv.tableName rowC st2
      rowsPairs cols rest row1 st1
    | .arr av ev =>
      let st1 :=
        if isArrayOfObjects ev then rowsObjElems av 0 ev st
        else if isArrayOfScalars ev then rowsFromScalarArray av ev st
        else st
      rowsPairs cols rest row st1
    | _ => rowsPairs cols rest row st
/-- The array-of-objects loop of `generateRowsFromArray`: every Object
element gets its `arrayIndex` and `parentId` overwritten and its rows
generated; the loop counter is incremented once when the index is taken
and once more at the end of each iteration, so object elements receive
the even indexes 0, 2, 4, ... -/
def rowsObjElems (a : AMeta) (index : Int) : NodeList → EngineState → EngineState
  | .nil, st => st
  | .cons e rest, st =>
    match e with
    | .obj me pe =>
      let me1 := { me with arrayIndex := index, parentId := a.parentId }
      let st1 :=
        if me1.tableName = "" then st
        else
          match mapFind st.tables me1.tableName with
          | none => st
          | some sch =>
            let base := scalarPass sch.columns pe (objRowBase sch.columns me1)
            let (rowC, st2) := rowsPairs sch.columns pe base st
            appendRow me1.tableName rowC st2
      rowsObjElems a (index + 2) rest st1
    | _ => rowsObjElems a (index + 1) rest st
end

/-- Source `CSVGenerator::generateRowsFromAst`: dispatch on the root node
(the bodies of `generateRowsFromObject` / `generateRowsFromArray` inlined
for the root). -/
def generateRowsFromAst (n : Node) (st : EngineState) : EngineState :=
  match n with
  | .obj m pairs =>
    if m.tableName = "" then st
    else
      match mapFind st.tables m.tableName with
      | none => st
      | some sch =>
        let base := scalarPass sch.columns pairs (objRowBase sch.columns m)
        let (rowC, st2) := rowsPairs sch.columns pairs base st
        appendRow m.tableName rowC st2
  | .arr a elems =>
    if isArrayOfObjects elems then rowsObjElems a 0 elems st
    else if isArrayOfScalars elems then rowsFromScalarArray a elems st
    else st
  | _ => st

/-! ### The full pipeline and batch file output (`generateCSV`, `main`) -/

/-- Source `CSVGenerator::generateCSV` up to row generation, batch mode:
analysis, renaming, relationship resolution, id normalization, rows. -/
def generateCSVState (root : Node) : EngineState :=
  let (root1, st1) := analyzeAst root {}
  let st2 := renameTablesBasedOnContent st1
  let st3 := processRelationships st2
  let st4 := normalizeIdColumns st3
  generateRowsFromAst root1 st4

/-- The file path used by the batch write loop of `generateCSV`:
`<outputDir>/<key>.csv` (or `<key>.csv` with an empty output directory),
where `key` is the entry's key in the tables map. -/
def csvFileName (outputDir tableName : String) : String :=
  if outputDir ≠ "" then outputDir ++ "/" ++ tableName ++ ".csv"
  else tableName ++ ".csv"

/-- The lines written for one table in batch mode: the header when the
column list is non-empty, then one line per non-empty row, fields joined
with a comma surrounded by single spaces. -/
def fileLines (sch : TableSchema) : List String :=
  (if sch.columns.isEmpty then [] else [String.intercalate " , " sch.columns]) ++
    (sch.rows.filter (fun r => !r.isEmpty)).map (fun r => String.intercalate " , " r)

/-- The batch write loop at the end of `generateCSV`: one file per entry of
the tables map, named by the entry's key, in map iteration order. -/
def batchFilesWritten (outputDir : String) (st : EngineState) : List (String × List String) :=
  st.tables.map (fun p => (csvFileName outputDir p.1, fileLines p.2))

/-- The post-parse success path of `main`: `ast.assignIds()` followed by
`CSVGenerator(out_dir).generateCSV(ast)`; the result is the list of files
the batch write loop produces. -/
def runConverter (outputDir : String) (root : Node) : List (String × List String) :=
  batchFilesWritten outputDir (generateCSVState (astAssignIds root))

/-! ### Parser error model (parser.y, final variant)

The grammar's semantic actions interact with the driver only through the
global flag `has_syntax_error` (initially false): every recovery action and
`yyerror` set it to true and no action ever clears it.  `ParserAction`
enumerates the production actions; `setsErrorFlag` records which of them
assign the flag. -/

/-- The semantic actions of the final grammar, one constructor per
production (plus `yyerror`). -/
inductive ParserAction where
  | jsonValue
  | jsonTopError
  | valueObject
  | valueArray
  | valueString
  | valueNumber
  | valueTrue
  | valueFalse
  | valueNull
  | valueError
  | objectPairsClose
  | objectEmpty
  | objectMissingBrace
  | pairsSingle
  | pairsComma
  | pairsMissingComma
  | pairColon
  | pairMissingColon
  | arrayClose
  | arrayEmpty
  | arrayMissingBracket
  | elementsSingle
  | elementsComma
  | elementsMissingComma
  | yyerrorCall
deriving DecidableEq

/-- Which semantic actions execute `has_syntax_error = true`. -/
def setsErrorFlag : ParserAction → Bool
  | .jsonTopError => true
  | .valueError => true
  | .objectMissingBrace => true
  | .pairsMissingComma => true
  | .pairMissingColon => true
  | .arrayMissingBracket => true
  | .elementsMissingComma => true
  | .yyerrorCall => true
  | _ => false

/-- The value of `has_syntax_error` after a sequence of semantic actions,
starting from `init` (false at program start): each action either sets the
flag or leaves it unchanged. -/
def flagAfterActions (acts : List ParserAction) (init : Bool) : Bool :=
  acts.foldl (fun f a => f || setsErrorFlag a) init

/-! ### Command-line entry point (final `main` with the
`has_syntax_error` check) -/

/-- Outcome of a run as observed at the process boundary. -/
inductive RunOutcome where
  | parseFailure
  | success (files : List (String × List String))
deriving DecidableEq

/-- Exit status of an outcome: 1 for the parse-failure report, 0 for a
completed conversion. -/
def RunOutcome.exitCode : RunOutcome → Int
  | .parseFailure => 1
  | .success _ => 0

/-- The diagnostic printed for an outcome. -/
def RunOutcome.errorMessage : RunOutcome → Option String
  | .parseFailure => some "Error: Failed to parse JSON input"
  | .success _ => none

/-- The CSV files produced by an outcome (none on parse failure, since
`main` returns before constructing the generator). -/
def RunOutcome.csvFiles : RunOutcome → List (String × List String)
  | .parseFailure => []
  | .success files => files

/-- The post-parse logic of `main` (final variant): when `yyparse` returned
non-zero or `has_syntax_error` is set, report the failure and exit 1 with
no CSV output; otherwise assign ids and generate CSV into `outDir`. -/
def mainAfterParse (parseResult : Int) (hasSyntaxError : Bool) (outDir : String)
    (root : Node) : RunOutcome :=
  if parseResult ≠ 0 || hasSyntaxError then .parseFailure
  else .success (runConverter outDir root)

/-! ### Command-line argument parsing (`main`, both variants identical) -/

/-- The mutable argument state of `main`. -/
structure ArgState where
  printAst : Bool := false
  outDir : String := "."
deriving DecidableEq

/-- Result of the argument loop. -/
inductive ArgResult where
  | ok (st : ArgState)
  | errMissingOutDir
  | errUnknown (arg : String)
deriving DecidableEq

/-- The argument loop of `main`: `--print-ast` sets the flag; `--out-dir`
consumes the immediately following token as the output directory whenever
one exists (`i + 1 < argc`) and otherwise fails with the dedicated
missing-value error; anything else fails as an unknown argument. -/
def parseArgs : List String → ArgState → ArgResult
  | [], st => .ok st
  | a :: rest, st =>
    if a = "--print-ast" then parseArgs rest { st with printAst := true }
    else if a = "--out-dir" then
      match rest with
      | v :: rest2 => parseArgs rest2 { st with outDir := v }
      | [] => .errMissingOutDir
    else .errUnknown a

/-- Exit status of the argument phase: both error paths print a message
plus the usage line and return 1. -/
def argExitCode : ArgResult → Int
  | .ok _ => 0
  | .errMissingOutDir => 1
  | .errUnknown _ => 1

set_option maxRecDepth 100000

/-! ### Concrete documents used by the claims -/

/-- The parsed AST of the input mapping "movie" to "Inception" and
"year" to 2010. -/
def movieDoc : Node :=
  .obj {} (.cons "movie" (.str "Inception") (.cons "year" (.num "2010") .nil))

/-- The parsed AST of the input mapping "tags" to the array of the three
strings "a", "b", "c". -/
def tagsDoc : Node :=
  .obj {} (.cons "tags"
    (.arr {} (.cons (.str "a") (.cons (.str "b") (.cons (.str "c") .nil)))) .nil)

/-- The parsed AST of the input whose single key is literally "id". -/
def idKeyDoc : Node :=
  .obj {} (.cons "id" (.num "5") .nil)

/-- Elements of an array whose first element has keys a, b and whose second
element additionally has key c. -/
def heteroElems : NodeList :=
  .cons (.obj {} (.cons "a" (.num "1") (.cons "b" (.num "2") .nil)))
    (.cons (.obj {} (.cons "a" (.num "3") (.cons "b" (.num "4")
      (.cons "c" (.num "5") .nil)))) .nil)

/-- A document carrying `heteroElems` under the key "items". -/
def heteroDoc : Node :=
  .obj {} (.cons "items" (.arr {} heteroElems) .nil)

/-! ### Claims C1 and C2 -/

/-- C1 (counterexample): for the movie input the batch run writes exactly
one file and its path is `out/root.csv` — the table's pre-rename internal
map key — so no `out/movies.csv` is produced, contradicting the claim that
the file is named by the renamed table identity. -/
theorem c1_counterexample :
    (runConverter "out" movieDoc).map Prod.fst = ["out/root.csv"] ∧
      "out/movies.csv" ∉ (runConverter "out" movieDoc).map Prod.fst := by
  decide

/-- C1 (amended): each inferred table is written to exactly one file named
`<outDir>/<key>.csv` where `key` is the table's pre-rename internal map
key; the renaming pass only rewrites the schema's display name.  For the
movie input the single file is `out/root.csv` with header
`id , movie , year` and the one row `1 , Inception , 2010`, while the root
schema's renamed display name is `movies`. -/
theorem c1_amended :
    runConverter "out" movieDoc =
      [("out/root.csv", ["id , movie , year", "1 , Inception , 2010"])] ∧
    (mapFind (generateCSVState (astAssignIds movieDoc)).tables "root").map
        TableSchema.name = some "movies" := by
  decide

/-- C2 (counterexample): for the tags input the `tags` table's final
columns are `id`, `seq`, `value` — there is no `entitie_id` column (the
foreign-key rename pass looked up `roots` among the old table names and
found nothing, leaving `root_id` in place for the id-normalization pass to
delete) — and the three rows carry no parent reference. -/
theorem c2_counterexample :
    (mapFind (generateCSVState (astAssignIds tagsDoc)).tables "tags").map
        TableSchema.columns = some ["id", "seq", "value"] ∧
      ¬ ((mapFind (generateCSVState (astAssignIds tagsDoc)).tables "tags").map
          TableSchema.columns = some ["id", "entitie_id", "seq", "value"]) := by
  decide

/-- C2 (amended): the tags input produces `tags.csv` with columns
`id`, `seq`, `value` and rows `1,0,a` / `2,1,b` / `3,2,c`; the root table
is indeed renamed to `entities` (no eligible naming column), but its
foreign-key column in `tags` stays `root_id` through the renaming pass and
is then dropped by id normalization, so no `entitie_id` column exists. -/
theorem c2_amended :
    runConverter "out" tagsDoc =
      [("out/root.csv", ["id", "1"]),
       ("out/tags.csv", ["id , seq , value", "1 , 0 , a", "2 , 1 , b", "3 , 2 , c"])] ∧
    (mapFind (generateCSVState (astAssignIds tagsDoc)).tables "root").map
        TableSchema.name = some "entities" := by
  decide

/-! ### Claim C4 -/

/-- C4 (counterexample): the Engine does not keep column lists
duplicate-free: a scalar key literally named `id` already duplicates the
automatic `id` column at schema creation, and the duplicate survives every
later phase of the pipeline. -/
theorem c4_counterexample :
    (generateCSVState (astAssignIds idKeyDoc)).tables.map (fun p => p.2.columns) =
      [["id", "id"]] ∧
    ¬ (["id", "id"] : List String).Nodup := by
  decide

/-- Lookup immediately after a sorted insert-or-overwrite finds the
inserted value. -/
theorem mapFind_mapInsert_self (k : String) (v : α) (m : List (String × α)) :
    mapFind (mapInsert k v m) k = some v := by
  induction m with
  | nil => simp [mapInsert, mapFind]
  | cons p rest ih =>
    obtain ⟨k1, v1⟩ := p
    by_cases h1 : strLt k k1 = true
    · simp [mapInsert, h1, mapFind]
    · by_cases h2 : k = k1
      · subst h2
        simp [mapInsert, h1, mapFind]
      · have h3 : k1 ≠ k := fun h => h2 h.symm
        simp [mapInsert, h1, h2, mapFind, h3, ih]

/-- C4 (amended): initial schema creation lists `id` followed by the
object's trimmed scalar keys in first-seen order with no deduplication, so
the created column list is duplicate-free exactly when those keys are
pairwise distinct and none of them is literally `id`; the Engine itself
never enforces this. -/
theorem c4_amended (tn : String) (pairs : KVList) (st : EngineState)
    (habsent : mapFind st.tables tn = none) :
    (mapFind (createSchemaIfMissing tn pairs st).tables tn).map TableSchema.columns =
      some ("id" :: scalarColumnsOf pairs) ∧
    (("id" :: scalarColumnsOf pairs).Nodup ↔
      ((scalarColumnsOf pairs).Nodup ∧ "id" ∉ scalarColumnsOf pairs)) := by
  constructor
  · simp [createSchemaIfMissing, habsent, mapFind_mapInsert_self]
  · constructor
    · intro h
      exact ⟨h.of_cons, fun hmem => (List.nodup_cons.mp h).1 hmem⟩
    · intro h
      exact List.nodup_cons.mpr ⟨h.2, h.1⟩

/-- Witness for the amended C4 at a concrete input: a table `root` created
for two distinct non-`id` scalar keys has duplicate-free columns. -/
theorem c4_amended_witness :
    (mapFind (createSchemaIfMissing "root"
        (.cons "movie" (.str "Inception") (.cons "year" (.num "2010") .nil))
        {}).tables "root").map TableSchema.columns =
      some ["id", "movie", "year"] ∧
    (["id", "movie", "year"] : List String).Nodup := by
  have h := c4_amended "root"
    (.cons "movie" (.str "Inception") (.cons "year" (.num "2010") .nil)) {} (by decide)
  refine ⟨?_, ?_⟩
  · have h1 := h.1
    simpa using h1
  · decide

/-! ### Claim C6 -/

/-- C6 (counterexample): the two elements of `heteroElems` have different
key signatures (`a,b` against `a,b,c`), so the array fails
`isArrayOfObjects`, and the run over `heteroDoc` creates no table for the
`items` key at all — only the root table exists. -/
theorem c6_counterexample :
    isArrayOfObjects heteroElems = false ∧
    (generateCSVState (astAssignIds heteroDoc)).tables.map Prod.fst = ["root"] := by
  decide

/-- C6 (amended): an array whose first element has keys a, b and whose
second element adds key c does not pass the homogeneity check — the key
signatures `a,b` and `a,b,c` differ — and the Engine creates no child
table for it; the column-union behavior applies only to arrays whose
elements all share one identical key signature. -/
theorem c6_amended :
    Node.keySignature (.obj {} (.cons "a" (.num "1") (.cons "b" (.num "2") .nil)))
        = "a,b" ∧
    Node.keySignature (.obj {} (.cons "a" (.num "3") (.cons "b" (.num "4")
        (.cons "c" (.num "5") .nil)))) = "a,b,c" ∧
    isArrayOfObjects heteroElems = false ∧
    mapFind (generateCSVState (astAssignIds heteroDoc)).tables "items" = none := by
  decide

/-! ### Claim C8 -/

/-- The quoting rule as worded by the spec: trim first, then wrap the
trimmed field in double quotes with every embedded double quote doubled
exactly when it contains a comma, a double quote or a newline, and return
the trimmed field unchanged otherwise. -/
def quoteCSVFieldSpec (s : String) : String :=
  let t := trimString s
  if t.data.contains ',' || t.data.contains '"' || t.data.contains '\n' then
    ⟨'"' :: (((t.data.map (fun c => if c = '"' then [c, c] else [c])).flatten) ++ ['"'])⟩
  else t

/-- The escape loop doubles exactly the embedded double quotes. -/
theorem escapeQuotes_eq_join (l : List Char) :
    escapeQuotes l = (l.map (fun c => if c = '"' then [c, c] else [c])).flatten := by
  induction l with
  | nil => simp [escapeQuotes]
  | cons c rest ih => by_cases h : c = '"' <;> simp [escapeQuotes, h, ih]

/-- C8: `quoteCSVField` trims the field and then wraps it in double quotes
with embedded quotes doubled if and only if the trimmed field contains a
comma, a double quote, or a newline, returning the trimmed field unchanged
otherwise; in particular the string with an embedded comma and quotes is
written in the doubled-quote form the claim gives. -/
theorem c8_quoting :
    (∀ s : String, quoteCSVField s = quoteCSVFieldSpec s) ∧
    quoteCSVField "He said, \"hi\"" = "\"He said, \"\"hi\"\"\"" := by
  constructor
  · intro s
    simp [quoteCSVField, quoteCSVFieldSpec, containsChar, escapeQuotes_eq_join]
  · decide

/-! ### Claim C10 -/

/-- A run of the argument loop ends in the dedicated missing-value error
only when the last argument is literally `--out-dir`. -/
theorem parseArgs_err_last :
    ∀ (args : List String) (st : ArgState),
      parseArgs args st = ArgResult.errMissingOutDir → args.getLast? = some "--out-dir"
  | [], st => by simp [parseArgs]
  | a :: rest, st => by
    intro h
    rw [parseArgs.eq_def] at h
    by_cases ha : a = "--print-ast"
    · subst ha
      simp only [if_pos rfl] at h
      have hlast := parseArgs_err_last rest _ h
      cases rest with
      | nil => simp [parseArgs] at h
      | cons b rest2 => simpa using hlast
    · by_cases hb : a = "--out-dir"
      · subst hb
        cases rest with
        | nil => simp
        | cons v rest2 =>
          simp only [ha, if_false, if_pos rfl, reduceIte] at h
          have hlast := parseArgs_err_last rest2 _ h
          cases rest2 with
          | nil => simp [parseArgs] at h
          | cons c rest3 => simpa using hlast
      · exfalso
        simp [ha, hb] at h

/-- C10: whenever `--out-dir` is followed by any token at all, that token is
consumed as the output directory — whatever it looks like, including a
recognized flag — and the dedicated missing-value rejection occurs exactly
when `--out-dir` is the final argument. -/
theorem c10_out_dir_consumption :
    (∀ (t : String) (rest : List String) (st : ArgState),
        parseArgs ("--out-dir" :: t :: rest) st = parseArgs rest { st with outDir := t }) ∧
    (∀ st : ArgState, parseArgs ["--out-dir"] st = .errMissingOutDir) ∧
    (∀ (args : List String) (st : ArgState),
        parseArgs args st = .errMissingOutDir → args.getLast? = some "--out-dir") := by
  refine ⟨?_, ?_, ?_⟩
  · intro t rest st
    simp [parseArgs]
  · intro st
    simp [parseArgs]
  · exact parseArgs_err_last

/-- Witness for C10 at concrete inputs: `--out-dir --print-ast` consumes
the flag token as the directory, and a final `--out-dir` is the rejected
shape. -/
theorem c10_out_dir_consumption_witness :
    parseArgs ["--out-dir", "--print-ast"] {} =
      parseArgs [] { printAst := false, outDir := "--print-ast" } ∧
    parseArgs ["--out-dir"] {} = ArgResult.errMissingOutDir ∧
    (["--out-dir"] : List String).getLast? = some "--out-dir" :=
  ⟨c10_out_dir_consumption.1 "--print-ast" [] {},
   c10_out_dir_consumption.2.1 {},
   c10_out_dir_consumption.2.2 ["--out-dir"] {} (c10_out_dir_consumption.2.1 {})⟩

/-! ### Claim C3 -/

/-- The error flag after a run of actions is the initial value or-ed with
whether any executed action sets the flag: the flag is monotone and no
action ever clears it. -/
theorem flagAfterActions_eq_any (acts : List ParserAction) (init : Bool) :
    flagAfterActions acts init = (init || acts.any setsErrorFlag) := by
  induction acts generalizing init with
  | nil => simp [flagAfterActions]
  | cons a rest ih =>
    have h1 : flagAfterActions (a :: rest) init =
        flagAfterActions rest (init || setsErrorFlag a) := rfl
    rw [h1, ih]
    simp [Bool.or_assoc]

/-- C3: when the parse returns non-zero, or any executed semantic action
set the syntax-error flag — in particular the missing-comma recovery
between object pairs — `main` reports the parse failure, exits with
status 1, and produces no CSV files. -/
theorem c3_parse_failure_gate (parseResult : Int) (acts : List ParserAction)
    (outDir : String) (root : Node)
    (h : parseResult ≠ 0 ∨ ParserAction.pairsMissingComma ∈ acts ∨
        flagAfterActions acts false = true) :
    mainAfterParse parseResult (flagAfterActions acts false) outDir root = .parseFailure ∧
    (mainAfterParse parseResult (flagAfterActions acts false) outDir root).exitCode = 1 ∧
    (mainAfterParse parseResult (flagAfterActions acts false) outDir root).errorMessage =
      some "Error: Failed to parse JSON input" ∧
    (mainAfterParse parseResult (flagAfterActions acts false) outDir root).csvFiles = [] := by
  have hfail : mainAfterParse parseResult (flagAfterActions acts false) outDir root =
      .parseFailure := by
    rcases h with h | h | h
    · simp [mainAfterParse, h]
    · have hflag : flagAfterActions acts false = true := by
        rw [flagAfterActions_eq_any]
        simp only [Bool.false_or, List.any_eq_true]
        exact ⟨_, h, rfl⟩
      simp [mainAfterParse, hflag]
    · simp [mainAfterParse, h]
  refine ⟨hfail, ?_, ?_, ?_⟩ <;> rw [hfail] <;> rfl

/-- Witness for C3 at a concrete input: a run whose only recorded action is
the missing-comma recovery between object pairs fails with exit status 1
and no CSV output even though the parse completed with result 0. -/
theorem c3_parse_failure_gate_witness :
    mainAfterParse 0 (flagAfterActions [ParserAction.pairsMissingComma] false) "out"
        Node.null = RunOutcome.parseFailure ∧
    (mainAfterParse 0 (flagAfterActions [ParserAction.pairsMissingComma] false) "out"
        Node.null).exitCode = 1 ∧
    (mainAfterParse 0 (flagAfterActions [ParserAction.pairsMissingComma] false) "out"
        Node.null).errorMessage = some "Error: Failed to parse JSON input" ∧
    (mainAfterParse 0 (flagAfterActions [ParserAction.pairsMissingComma] false) "out"
        Node.null).csvFiles = [] :=
  c3_parse_failure_gate 0 [ParserAction.pairsMissingComma] "out" Node.null
    (Or.inr (Or.inl (List.mem_singleton.mpr rfl)))

/-! ### Claim C5 -/

/-- A key returned by the users/authors `find_if` is present in the map. -/
theorem findTableKeyByEitherName_mapFind (nm : String)
    (l : List (String × TableSchema)) (k : String)
    (h : findTableKeyByEitherName nm l = some k) : (mapFind l k).isSome := by
  induction l with
  | nil => simp [findTableKeyByEitherName] at h
  | cons p rest ih =>
    obtain ⟨k1, sch⟩ := p
    by_cases h1 : (k1 = nm || sch.name = nm) = true
    · rw [findTableKeyByEitherName, if_pos h1] at h
      obtain rfl : k1 = k := by simpa using h
      simp [mapFind]
    · rw [findTableKeyByEitherName, if_neg h1] at h
      by_cases h2 : k1 = k
      · simp [mapFind, h2]
      · simp only [mapFind, h2, if_false, reduceIte]
        exact ih h

/-- Lookup commutes with a value-only rewrite of every entry. -/
theorem mapFind_mapValues (g : TableSchema → TableSchema)
    (l : List (String × TableSchema)) (k : String) :
    mapFind (l.map (fun p => (p.1, g p.2))) k = (mapFind l k).map g := by
  induction l with
  | nil => simp [mapFind]
  | cons p rest ih =>
    obtain ⟨k1, v1⟩ := p
    by_cases h : k1 = k
    · simp [mapFind, h]
    · simp [mapFind, h, ih]

/-- A found binding is one of the entries. -/
theorem mapFind_mem (l : List (String × TableSchema)) (k : String)
    (v : TableSchema) (h : mapFind l k = some v) : (k, v) ∈ l := by
  induction l with
  | nil => simp [mapFind] at h
  | cons p rest ih =>
    obtain ⟨k1, v1⟩ := p
    by_cases h1 : k1 = k
    · rw [mapFind, if_pos h1] at h
      obtain rfl : v1 = v := by simpa using h
      subst h1
      exact List.mem_cons_self _ _
    · rw [mapFind, if_neg h1] at h
      exact List.mem_cons_of_mem _ (ih h)

/-- Unfolding of `List.contains` over a cons cell. -/
theorem contains_cons_str (t x : String) (l : List String) :
    (t :: l).contains x = (x == t || l.contains x) := rfl

/-- Membership after inserting into the sorted merged set. -/
theorem setInsertString_contains (s x : String) (l : List String) :
    (setInsertString s l).contains x = (l.contains x || x == s) := by
  induction l with
  | nil =>
    rw [setInsertString, contains_cons_str]
    cases x == s <;> rfl
  | cons t rest ih =>
    rw [setInsertString]
    by_cases h1 : strLt s t = true
    · rw [if_pos h1]
      simp only [contains_cons_str]
      cases x == s <;> cases x == t <;> cases rest.contains x <;> rfl
    · rw [if_neg h1]
      by_cases h2 : s = t
      · rw [if_pos h2]
        subst h2
        simp only [contains_cons_str]
        cases x == s <;> cases rest.contains x <;> rfl
      · rw [if_neg h2]
        simp only [contains_cons_str, ih]
        cases x == s <;> cases x == t <;> cases rest.contains x <;> rfl

/-- The column rewrite applied to every schema by `mergeTable`. -/
def mergeColumnRename (sourceTable targetTable : String) (sch : TableSchema) :
    TableSchema :=
  let cols1 := sch.columns.map (fun col =>
    if col = sourceTable ++ "_id" then targetTable ++ "_id" else col)
  { sch with columns := cols1 }

/-- C5: with both a `users` and an `authors` table located (by key or by
display name), merging `authors` into `users` rewrites, in every table,
exactly the columns literally named `<sourceKey>_id` to `<targetKey>_id`
while leaving every schema's display name and rows unchanged, adds the
source key to the merged set so it is excluded from `getTableNames`, and
leaves the set of files the batch writer produces unchanged — the source
table's file is still written. -/
theorem c5_merge_frame (st : EngineState) (uk ak : String)
    (hu : findTableKeyByEitherName "users" st.tables = some uk)
    (ha : findTableKeyByEitherName "authors" st.tables = some ak) :
    (∀ (k : String) (sch : TableSchema),
        mapFind st.tables k = some sch →
        mapFind (mergeTable ak uk st).tables k = some (mergeColumnRename ak uk sch) ∧
        (mergeColumnRename ak uk sch).rows = sch.rows ∧
        (mergeColumnRename ak uk sch).name = sch.name ∧
        (mergeColumnRename ak uk sch).columns = sch.columns.map
          (fun c => if c = ak ++ "_id" then uk ++ "_id" else c)) ∧
    (mergeTable ak uk st).mergedTables = setInsertString ak st.mergedTables ∧
    getTableNames (mergeTable ak uk st) =
      ((mergeTable ak uk st).tables.filter
        (fun p => !st.mergedTables.contains p.1 && p.1 != ak)).map (fun p => p.2.name) ∧
    (∀ outDir : String,
        (batchFilesWritten outDir (mergeTable ak uk st)).map Prod.fst =
          (batchFilesWritten outDir st).map Prod.fst ∧
        csvFileName outDir ak ∈
          (batchFilesWritten outDir (mergeTable ak uk st)).map Prod.fst) := by
  obtain ⟨schA, hA⟩ := Option.isSome_iff_exists.mp (findTableKeyByEitherName_mapFind _ _ _ ha)
  obtain ⟨schU, hU⟩ := Option.isSome_iff_exists.mp (findTableKeyByEitherName_mapFind _ _ _ hu)
  have htab : (mergeTable ak uk st).tables =
      st.tables.map (fun p => (p.1, mergeColumnRename ak uk p.2)) := by
    rw [mergeTable, hA, hU]
    rfl
  have hset : (mergeTable ak uk st).mergedTables = setInsertString ak st.mergedTables := by
    rw [mergeTable, hA, hU]
  refine ⟨?_, hset, ?_, ?_⟩
  · intro k sch hk
    refine ⟨?_, rfl, rfl, rfl⟩
    rw [htab, mapFind_mapValues, hk]
    rfl
  · rw [getTableNames, hset]
    refine congrArg _ (List.filter_congr ?_)
    intro p _
    rw [setInsertString_contains]
    cases h1 : st.mergedTables.contains p.1 <;> cases h2 : p.1 == ak <;>
      simp [h1, h2, bne]
  · intro outDir
    constructor
    · rw [batchFilesWritten, batchFilesWritten, htab]
      simp [List.map_map, Function.comp]
    · have hmem : (ak, schA) ∈ st.tables := mapFind_mem _ _ _ hA
      rw [batchFilesWritten, htab]
      simp only [List.map_map, List.mem_map, Function.comp]
      exact ⟨(ak, schA), hmem, rfl⟩

/-- A concrete engine state for the C5 witness: tables keyed `authors`,
`posts` (whose `authors_id` column references the source) and `users`. -/
def c5ExampleState : EngineState :=
  { tables :=
      [("authors", { name := "authors", columns := ["id", "name"], rows := [["2", "Bob"]] }),
       ("posts", { name := "posts", columns := ["id", "authors_id"], rows := [["1", "2"]] }),
       ("users", { name := "users", columns := ["id", "name"], rows := [] })],
    mergedTables := [],
    objArrayMappings := [],
    scalarArrayMappings := [] }

/-- Witness for C5 at `c5ExampleState`: the `posts` table's `authors_id`
column becomes `users_id` with rows untouched, `authors` lands in the
merged set, and the batch writer still produces `out/authors.csv`. -/
theorem c5_merge_frame_witness :
    mapFind (mergeTable "authors" "users" c5ExampleState).tables "posts" =
      some (mergeColumnRename "authors" "users"
        { name := "posts", columns := ["id", "authors_id"], rows := [["1", "2"]] }) ∧
    (mergeTable "authors" "users" c5ExampleState).mergedTables =
      setInsertString "authors" [] ∧
    csvFileName "out" "authors" ∈
      (batchFilesWritten "out" (mergeTable "authors" "users" c5ExampleState)).map
        Prod.fst := by
  have h := c5_merge_frame c5ExampleState "users" "authors" (by decide) (by decide)
  refine ⟨?_, ?_, ?_⟩
  · exact (h.1 "posts"
      { name := "posts", columns := ["id", "authors_id"], rows := [["1", "2"]] }
      (by decide)).1
  · exact h.2.1
  · exact (h.2.2.2 "out").2

/-! ### Claim C9 -/

/-- A hex digit is not one of the C whitespace characters. -/
theorem hex_not_space (c : Char) (h : isHexDigitC c = true) : isCSpace c = false := by
  have hs : c ≠ ' ' := fun e => by subst e; exact absurd h (by decide)
  have ht : c ≠ '\t' := fun e => by subst e; exact absurd h (by decide)
  have hn : c ≠ '\n' := fun e => by subst e; exact absurd h (by decide)
  have hv : c ≠ '\x0b' := fun e => by subst e; exact absurd h (by decide)
  have hf : c ≠ '\x0c' := fun e => by subst e; exact absurd h (by decide)
  have hr : c ≠ '\r' := fun e => by subst e; exact absurd h (by decide)
  simp [isCSpace, hs, ht, hn, hv, hf, hr]

/-- A hex digit is not a plus sign. -/
theorem hex_ne_plus (c : Char) (h : isHexDigitC c = true) : c ≠ '+' :=
  fun e => by subst e; exact absurd h (by decide)

/-- A hex digit is not a minus sign. -/
theorem hex_ne_minus (c : Char) (h : isHexDigitC c = true) : c ≠ '-' :=
  fun e => by subst e; exact absurd h (by decide)

/-- A hex digit is not a lowercase x, so it never opens a `0x` marker. -/
theorem hex_ne_x (c : Char) (h : isHexDigitC c = true) : c ≠ 'x' :=
  fun e => by subst e; exact absurd h (by decide)

/-- A hex digit is not an uppercase X, so it never opens a `0X` marker. -/
theorem hex_ne_X (c : Char) (h : isHexDigitC c = true) : c ≠ 'X' :=
  fun e => by subst e; exact absurd h (by decide)

/-- The numeric value of four hex digits read most significant first. -/
def hexVal4 (d1 d2 d3 d4 : Char) : Nat :=
  4096 * hexDigitValC d1 + 256 * hexDigitValC d2 + 16 * hexDigitValC d3 + hexDigitValC d4

/-- On exactly four hex digits, `strtol` base 16 returns their value. -/
theorem cstrtol16_four_hex (d1 d2 d3 d4 : Char)
    (h1 : isHexDigitC d1 = true) (h2 : isHexDigitC d2 = true)
    (h3 : isHexDigitC d3 = true) (h4 : isHexDigitC d4 = true) :
    cstrtol16 [d1, d2, d3, d4] = (hexVal4 d1 d2 d3 d4 : Int) := by
  rw [cstrtol16]
  simp only [List.dropWhile_cons, hex_not_space d1 h1, Bool.false_eq_true, reduceIte]
  simp only [hex_ne_plus d1 h1, hex_ne_minus d1 h1, reduceIte]
  simp only [strip0x, hex_ne_x d2 h2, hex_ne_X d2 h2, or_self, and_false, reduceIte]
  rw [hexPrefixVal]
  simp only [List.takeWhile_cons, h1, h2, h3, h4, reduceIte, List.takeWhile_nil,
    List.foldl_cons, List.foldl_nil]
  rw [hexVal4]
  push_cast
  ring

/-- C9 (counterexample): the escape `\uzzzz` has fewer than four hex digits
(none at all) remaining before the closing quote, yet it does not decode to
`?`: the four characters are fed to `strtol`, which parses no digits and
returns 0, and the code point 0 is emitted as a single NUL byte. -/
theorem c9_counterexample :
    process_string "\\uzzzz" = "\x00" ∧
    containsChar (process_string "\\uzzzz") '?' = false := by
  have h : process_string "\\uzzzz" = "\x00" := by
    simp [process_string, processStringChars, simpleEscape, utf8bytes, cstrtol16,
      strip0x, hexPrefixVal, isHexDigitC, isCSpace, byteOf]
  exact ⟨h, by rw [h]; decide⟩

/-- C9 (amended): a `u` escape whose next four characters are all hex
digits decodes them to their numeric value and re-encodes that code point
by the standard thresholds (at most 0x7F one byte, at most 0x7FF two
bytes, larger three bytes); a `u` escape with fewer than four characters
(of any kind) remaining before the closing quote decodes to a literal
`?` and resumes right after the `u`; when four characters remain they are
always consumed and handed to `strtol` base 16, whose returned value is
encoded — never a `?` — so the claim's hex-digit-counting form of the `?`
rule does not hold. -/
theorem c9_amended :
    (∀ (d1 d2 d3 d4 : Char) (rest : List Char),
        isHexDigitC d1 = true → isHexDigitC d2 = true →
        isHexDigitC d3 = true → isHexDigitC d4 = true →
        processStringChars ('\\' :: 'u' :: d1 :: d2 :: d3 :: d4 :: rest) =
          utf8bytes (hexVal4 d1 d2 d3 d4 : Int) ++ processStringChars rest) ∧
    (∀ code : Int,
        (code ≤ 0x7F → utf8bytes code = [byteOf code]) ∧
        (0x7F < code → code ≤ 0x7FF → (utf8bytes code).length = 2) ∧
        (0x7FF < code → (utf8bytes code).length = 3)) ∧
    (∀ t : List Char, t.length < 4 →
        processStringChars ('\\' :: 'u' :: t) = '?' :: processStringChars t) ∧
    (∀ (t rest : List Char), t.length = 4 →
        processStringChars ('\\' :: 'u' :: (t ++ rest)) =
          utf8bytes (cstrtol16 t) ++ processStringChars rest) := by
  refine ⟨?_, ?_, ?_, ?_⟩
  · intro d1 d2 d3 d4 rest h1 h2 h3 h4
    rw [processStringChars]
    simp [simpleEscape, cstrtol16_four_hex d1 d2 d3 d4 h1 h2 h3 h4]
  · intro code
    refine ⟨?_, ?_, ?_⟩
    · intro h
      simp [utf8bytes, h]
    · intro hlo hhi
      rw [utf8bytes, if_neg (by omega), if_pos hhi]
      rfl
    · intro h
      rw [utf8bytes, if_neg (by omega), if_neg (by omega)]
      rfl
  · intro t h
    rw [processStringChars]
    simp [simpleEscape]
    omega
  · intro t rest h
    rw [processStringChars]
    have hlen : 4 ≤ (t ++ rest).length := by
      rw [List.length_append, h]; omega
    have htake : (t ++ rest).take 4 = t := by
      rw [← h]; exact List.take_left t rest
    have hdrop : (t ++ rest).drop 4 = rest := by
      rw [← h]; exact List.drop_left t rest
    simp [simpleEscape, hlen, htake, hdrop]
    intro hcon
    exact absurd hcon (by omega)

/-- Witness for the amended C9 at concrete inputs: `0041` decodes to the
single byte `A`; a `u` escape followed by only two characters decodes to
`?` and resumes after the `u`; the four non-hex-digit characters `0x41`
are consumed and decode through `strtol` (which honours the `0x` marker)
to the byte `A` rather than to `?`. -/
theorem c9_amended_witness :
    processStringChars ['\\', 'u', '0', '0', '4', '1'] =
      utf8bytes (hexVal4 '0' '0' '4' '1' : Int) ++ processStringChars [] ∧
    processStringChars ['\\', 'u', 'a', 'b'] = '?' :: processStringChars ['a', 'b'] ∧
    processStringChars ['\\', 'u', '0', 'x', '4', '1'] =
      utf8bytes (cstrtol16 ['0', 'x', '4', '1']) ++ processStringChars [] ∧
    utf8bytes (cstrtol16 ['0', 'x', '4', '1']) = ['A'] :=
  ⟨c9_amended.1 '0' '0' '4' '1' [] (by decide) (by decide) (by decide) (by decide),
   c9_amended.2.2.1 ['a', 'b'] (by decide),
   c9_amended.2.2.2 ['0', 'x', '4', '1'] [] (by decide),
   by decide⟩

/-! ### Claim C7 -/

mutual
/-- How many Object nodes the identifier-assignment pass visits below (and
including) a node: an Object plus its visited pairs; an array-of-objects'
visited elements; nothing for leaves and other array shapes. -/
def countAssignedNode : Node → Nat
  | .obj _ pairs => 1 + countAssignedPairs pairs
  | .arr _ elems => if isArrayOfObjects elems then countAssignedElems elems else 0
  | _ => 0
/-- Visits below a pair list: only Object- and Array-valued pairs recurse. -/
def countAssignedPairs : KVList → Nat
  | .nil => 0
  | .cons _ v rest =>
    (match v with
     | .obj mv pv => countAssignedNode (.obj mv pv)
     | .arr av ev => countAssignedNode (.arr av ev)
     | _ => 0) + countAssignedPairs rest
/-- Visits below an element list: only Object elements recurse. -/
def countAssignedElems : NodeList → Nat
  | .nil => 0
  | .cons e rest =>
    (match e with
     | .obj me pe => countAssignedNode (.obj me pe)
     | _ => 0) + countAssignedElems rest
end

mutual
/-- The `id` fields of the Object nodes of a tree, read in the pre-order
the identifier-assignment pass uses (a node before its pairs; array
elements in order; skipped subtrees contribute nothing). -/
def assignedIdsNode : Node → List Int
  | .obj m pairs => m.id :: assignedIdsPairs pairs
  | .arr _ elems => if isArrayOfObjects elems then assignedIdsElems elems else []
  | _ => []
/-- Ids below a pair list, in order. -/
def assignedIdsPairs : KVList → List Int
  | .nil => []
  | .cons _ v rest =>
    (match v with
     | .obj mv pv => assignedIdsNode (.obj mv pv)
     | .arr av ev => assignedIdsNode (.arr av ev)
     | _ => []) ++ assignedIdsPairs rest
/-- Ids below an element list, in order. -/
def assignedIdsElems : NodeList → List Int
  | .nil => []
  | .cons e rest =>
    (match e with
     | .obj me pe => assignedIdsNode (.obj me pe)
     | _ => []) ++ assignedIdsElems rest
end

/-- The list of `k` consecutive integers starting at `c`. -/
def intRange (c : Int) : Nat → List Int
  | 0 => []
  | k + 1 => c :: intRange (c + 1) k

/-- The shape datum of an array element that the homogeneity check reads:
whether it is an Object, and its key signature when it is. -/
def Node.elemSig : Node → Option String
  | .obj _ pairs => some (keySignatureOfKeys pairs.keys)
  | _ => none

/-- Element shape data of a node list. -/
def NodeList.sigList : NodeList → List (Option String)
  | .nil => []
  | .cons e rest => e.elemSig :: NodeList.sigList rest

theorem isObjNode_eq_isSome :
    Node.isObjNode = fun e => (Node.elemSig e).isSome := by
  funext e
  cases e <;> rfl

/-- Pointwise form of the previous lemma. -/
theorem isObjNode_pointwise (n : Node) : Node.isObjNode n = (Node.elemSig n).isSome := by
  cases n <;> rfl

theorem keySignature_eq_getD :
    Node.keySignature = fun e => (Node.elemSig e).getD "" := by
  funext e
  cases e <;> rfl

theorem sigList_eq_map : ∀ l : NodeList, l.sigList = l.toNodes.map Node.elemSig
  | .nil => rfl
  | .cons e rest => by
    simp [NodeList.sigList, NodeList.toNodes, sigList_eq_map rest]

/-- `List.all` after mapping the shape datum. -/
theorem all_map_elemSig (l : List Node) (p : Option String → Bool) :
    (l.map Node.elemSig).all p = l.all (fun e => p e.elemSig) := by
  induction l with
  | nil => rfl
  | cons e rest ih => simp [ih]

/-- The homogeneity check computed from element shape data alone. -/
def isoSig : List (Option String) → Bool
  | [] => false
  | first :: rest =>
    (first :: rest).all Option.isSome && rest.all (fun p => p.getD "" = first.getD "")

theorem isArrayOfObjects_eq_isoSig (l : NodeList) :
    isArrayOfObjects l = isoSig l.sigList := by
  cases l with
  | nil => rfl
  | cons first rest =>
    show ((first :: rest.toNodes).all Node.isObjNode &&
        rest.toNodes.all (fun e => e.keySignature = first.keySignature)) = _
    rw [isObjNode_eq_isSome, keySignature_eq_getD]
    show _ = ((first.elemSig :: rest.sigList).all Option.isSome &&
        rest.sigList.all (fun p => p.getD "" = first.elemSig.getD ""))
    rw [sigList_eq_map, List.all_cons, List.all_cons, all_map_elemSig, all_map_elemSig]

/-- Homogeneity depends only on the element shape data. -/
theorem isArrayOfObjects_congr (l1 l2 : NodeList) (h : l1.sigList = l2.sigList) :
    isArrayOfObjects l1 = isArrayOfObjects l2 := by
  rw [isArrayOfObjects_eq_isoSig, isArrayOfObjects_eq_isoSig, h]

mutual
/-- The identifier pass does not change a node's shape datum. -/
theorem assignIdsNode_elemSig : ∀ (ov : Option ParentLink) (n : Node) (c : Int),
    Node.elemSig ((assignIdsNode ov n c).1) = Node.elemSig n
  | ov, .obj m pairs, c => by
    simp [assignIdsNode, Node.elemSig,
      assignIdsPairs_keys (assignTableName (m.applyLink ov) c) c pairs (c + 1)]
  | ov, .arr a elems, c => by
    cases h : isArrayOfObjects elems <;> simp [assignIdsNode, h, Node.elemSig]
  | _, .str _, _ => rfl
  | _, .num _, _ => rfl
  | _, .boolv _, _ => rfl
  | _, .null, _ => rfl
/-- The identifier pass does not change the keys of a pair list. -/
theorem assignIdsPairs_keys : ∀ (tn : String) (pid : Int) (l : KVList) (c : Int),
    ((assignIdsPairs tn pid l c).1).keys = l.keys
  | _, _, .nil, _ => rfl
  | tn, pid, .cons k v rest, c => by
    cases v with
    | obj mv pv =>
      simp only [assignIdsPairs, KVList.keys]
      rw [assignIdsPairs_keys tn pid rest _]
    | arr av ev =>
      simp only [assignIdsPairs, KVList.keys]
      rw [assignIdsPairs_keys tn pid rest _]
    | str s =>
      simp only [assignIdsPairs, KVList.keys]
      rw [assignIdsPairs_keys tn pid rest _]
    | num s =>
      simp only [assignIdsPairs, KVList.keys]
      rw [assignIdsPairs_keys tn pid rest _]
    | boolv b =>
      simp only [assignIdsPairs, KVList.keys]
      rw [assignIdsPairs_keys tn pid rest _]
    | null =>
      simp only [assignIdsPairs, KVList.keys]
      rw [assignIdsPairs_keys tn pid rest _]
/-- The identifier pass does not change the shape data of an element list. -/
theorem assignIdsElems_sigList : ∀ (link : Int × String × String) (idx : Nat)
    (l : NodeList) (c : Int),
    ((assignIdsElems link idx l c).1).sigList = l.sigList
  | _, _, .nil, _ => rfl
  | link, idx, .cons e rest, c => by
    cases e with
    | obj me pe =>
      simp only [assignIdsElems, NodeList.sigList]
      rw [assignIdsNode_elemSig _ (.obj me pe) c, assignIdsElems_sigList link (idx + 1) rest _]
    | arr ae ee =>
      simp only [assignIdsElems, NodeList.sigList]
      rw [assignIdsElems_sigList link (idx + 1) rest _]
    | str s =>
      simp only [assignIdsElems, NodeList.sigList]
      rw [assignIdsElems_sigList link (idx + 1) rest _]
    | num s =>
      simp only [assignIdsElems, NodeList.sigList]
      rw [assignIdsElems_sigList link (idx + 1) rest _]
    | boolv b =>
      simp only [assignIdsElems, NodeList.sigList]
      rw [assignIdsElems_sigList link (idx + 1) rest _]
    | null =>
      simp only [assignIdsElems, NodeList.sigList]
      rw [assignIdsElems_sigList link (idx + 1) rest _]
end

theorem intRange_zero (c : Int) : intRange c 0 = [] := rfl

theorem intRange_succ_left (c : Int) (k : Nat) :
    intRange c (1 + k) = c :: intRange (c + 1) k := by
  rw [Nat.add_comm]
  rfl

theorem intRange_append (c : Int) (m n : Nat) :
    intRange c (m + n) = intRange c m ++ intRange (c + m) n := by
  induction m generalizing c with
  | zero => simp [intRange_zero]
  | succ m ih =>
    have h1 : m.succ + n = (m + n) + 1 := by omega
    rw [h1]
    show c :: intRange (c + 1) (m + n) =
      (c :: intRange (c + 1) m) ++ intRange (c + (m.succ : Nat)) n
    rw [ih (c + 1)]
    simp only [List.cons_append]
    have h2 : c + ((m.succ : Nat) : Int) = c + 1 + (m : Nat) := by push_cast; ring
    rw [h2]

/-- A pair's contribution to the visit count (the skipped leaf arms
contribute 0, which is also their `countAssignedNode`). -/
theorem countAssignedPairs_cons (k : String) (v : Node) (rest : KVList) :
    countAssignedPairs (.cons k v rest) = countAssignedNode v + countAssignedPairs rest := by
  cases v <;> rfl

/-- A pair's contribution to the id list (skipped leaves contribute [],
which is also their `assignedIdsNode`). -/
theorem assignedIdsPairs_cons (k : String) (v : Node) (rest : KVList) :
    assignedIdsPairs (.cons k v rest) = assignedIdsNode v ++ assignedIdsPairs rest := by
  cases v <;> rfl

/-- An Object element's contribution to the visit count. -/
theorem countAssignedElems_cons_obj (me : OMeta) (pe : KVList) (rest : NodeList) :
    countAssignedElems (.cons (.obj me pe) rest) =
      countAssignedNode (.obj me pe) + countAssignedElems rest := rfl

/-- A non-Object element contributes no visits. -/
theorem countAssignedElems_cons_other (e : Node) (rest : NodeList)
    (h : Node.isObjNode e = false) :
    countAssignedElems (.cons e rest) = countAssignedElems rest := by
  cases e
  case obj => simp [Node.isObjNode] at h
  all_goals simp [countAssignedElems]

/-- An Object element's contribution to the id list. -/
theorem assignedIdsElems_cons_obj (me : OMeta) (pe : KVList) (rest : NodeList) :
    assignedIdsElems (.cons (.obj me pe) rest) =
      assignedIdsNode (.obj me pe) ++ assignedIdsElems rest := rfl

/-- A non-Object element contributes no ids. -/
theorem assignedIdsElems_cons_other (e : Node) (rest : NodeList)
    (h : Node.isObjNode e = false) :
    assignedIdsElems (.cons e rest) = assignedIdsElems rest := by
  cases e
  case obj => simp [Node.isObjNode] at h
  all_goals simp [assignedIdsElems]

/-- An Object-shaped head's contribution to the element id list. -/
theorem assignedIdsElems_cons_isObj (e : Node) (rest : NodeList)
    (h : Node.isObjNode e = true) :
    assignedIdsElems (.cons e rest) = assignedIdsNode e ++ assignedIdsElems rest := by
  cases e
  case obj => rfl
  all_goals simp [Node.isObjNode] at h

mutual
/-- The identifier pass advances the counter by the number of visited
Object nodes and hands out exactly the consecutive ids starting at the
incoming counter, in visit order. -/
theorem assignIdsNode_spec : ∀ (ov : Option ParentLink) (n : Node) (c : Int),
    (assignIdsNode ov n c).2 = c + (countAssignedNode n : Int) ∧
    assignedIdsNode ((assignIdsNode ov n c).1) = intRange c (countAssignedNode n)
  | ov, .obj m pairs, c => by
    obtain ⟨ih1, ih2⟩ :=
      assignIdsPairs_spec (assignTableName (m.applyLink ov) c) c pairs (c + 1)
    constructor
    · simp only [assignIdsNode, countAssignedNode]
      rw [ih1]
      push_cast
      ring
    · simp only [assignIdsNode, assignedIdsNode, countAssignedNode]
      rw [ih2, intRange_succ_left]
  | ov, .arr a elems, c => by
    cases h : isArrayOfObjects elems with
    | true =>
      obtain ⟨ih1, ih2⟩ :=
        assignIdsElems_spec ((a.applyLink ov).parentId, (a.applyLink ov).parentTable,
          (a.applyLink ov).parentKey) 0 elems c
      have hpres : isArrayOfObjects ((assignIdsElems ((a.applyLink ov).parentId,
          (a.applyLink ov).parentTable, (a.applyLink ov).parentKey) 0 elems c).1) = true := by
        rw [isArrayOfObjects_congr _ elems (assignIdsElems_sigList _ _ _ _), h]
      constructor
      · simp only [assignIdsNode, h, if_true, countAssignedNode]
        exact ih1
      · simp only [assignIdsNode, h, if_true, countAssignedNode, assignedIdsNode, hpres]
        exact ih2
    | false =>
      constructor
      · simp [assignIdsNode, h, countAssignedNode]
      · simp [assignIdsNode, h, countAssignedNode, assignedIdsNode, intRange_zero]
  | ov, .str v, c => by
    constructor <;>
      simp [assignIdsNode, countAssignedNode, assignedIdsNode, intRange_zero]
  | ov, .num v, c => by
    constructor <;>
      simp [assignIdsNode, countAssignedNode, assignedIdsNode, intRange_zero]
  | ov, .boolv b, c => by
    constructor <;>
      simp [assignIdsNode, countAssignedNode, assignedIdsNode, intRange_zero]
  | ov, .null, c => by
    constructor <;>
      simp [assignIdsNode, countAssignedNode, assignedIdsNode, intRange_zero]
/-- Counter and id-list behavior of the pair loop. -/
theorem assignIdsPairs_spec : ∀ (tn : String) (pid : Int) (l : KVList) (c : Int),
    (assignIdsPairs tn pid l c).2 = c + (countAssignedPairs l : Int) ∧
    assignedIdsPairs ((assignIdsPairs tn pid l c).1) = intRange c (countAssignedPairs l)
  | tn, pid, .nil, c => by
    constructor <;>
      simp [assignIdsPairs, countAssignedPairs, assignedIdsPairs, intRange_zero]
  | tn, pid, .cons k v rest, c => by
    cases v with
    | obj mv pv =>
      obtain ⟨ihv1, ihv2⟩ := assignIdsNode_spec (some ⟨pid, tn, k⟩) (.obj mv pv) c
      obtain ⟨ihr1, ihr2⟩ := assignIdsPairs_spec tn pid rest
        ((assignIdsNode (some ⟨pid, tn, k⟩) (.obj mv pv) c).2)
      constructor
      · simp only [assignIdsPairs, countAssignedPairs_cons]
        rw [ihr1, ihv1]
        push_cast
        ring
      · simp only [assignIdsPairs]
        rw [assignedIdsPairs_cons, countAssignedPairs_cons, ihv2, ihr2, ihv1,
          ← intRange_append]
    | arr av ev =>
      obtain ⟨ihv1, ihv2⟩ := assignIdsNode_spec (some ⟨pid, tn, k⟩) (.arr av ev) c
      obtain ⟨ihr1, ihr2⟩ := assignIdsPairs_spec tn pid rest
        ((assignIdsNode (some ⟨pid, tn, k⟩) (.arr av ev) c).2)
      constructor
      · simp only [assignIdsPairs, countAssignedPairs_cons]
        rw [ihr1, ihv1]
        push_cast
        ring
      · simp only [assignIdsPairs]
        rw [assignedIdsPairs_cons, countAssignedPairs_cons, ihv2, ihr2, ihv1,
          ← intRange_append]
    | str s =>
      obtain ⟨ihr1, ihr2⟩ := assignIdsPairs_spec tn pid rest c
      constructor
      · simp only [assignIdsPairs, countAssignedPairs_cons]
        rw [ihr1]
        simp [countAssignedNode]
      · simp only [assignIdsPairs]
        rw [assignedIdsPairs_cons, countAssignedPairs_cons, ihr2]
        simp [assignedIdsNode, countAssignedNode]
    | num s =>
      obtain ⟨ihr1, ihr2⟩ := assignIdsPairs_spec tn pid rest c
      constructor
      · simp only [assignIdsPairs, countAssignedPairs_cons]
        rw [ihr1]
        simp [countAssignedNode]
      · simp only [assignIdsPairs]
        rw [assignedIdsPairs_cons, countAssignedPairs_cons, ihr2]
        simp [assignedIdsNode, countAssignedNode]
    | boolv b =>
      obtain ⟨ihr1, ihr2⟩ := assignIdsPairs_spec tn pid rest c
      constructor
      · simp only [assignIdsPairs, countAssignedPairs_cons]
        rw [ihr1]
        simp [countAssignedNode]
      · simp only [assignIdsPairs]
        rw [assignedIdsPairs_cons, countAssignedPairs_cons, ihr2]
        simp [assignedIdsNode, countAssignedNode]
    | null =>
      obtain ⟨ihr1, ihr2⟩ := assignIdsPairs_spec tn pid rest c
      constructor
      · simp only [assignIdsPairs, countAssignedPairs_cons]
        rw [ihr1]
        simp [countAssignedNode]
      · simp only [assignIdsPairs]
        rw [assignedIdsPairs_cons, countAssignedPairs_cons, ihr2]
        simp [assignedIdsNode, countAssignedNode]
/-- Counter and id-list behavior of the element loop. -/
theorem assignIdsElems_spec : ∀ (link : Int × String × String) (idx : Nat)
    (l : NodeList) (c : Int),
    (assignIdsElems link idx l c).2 = c + (countAssignedElems l : Int) ∧
    assignedIdsElems ((assignIdsElems link idx l c).1) = intRange c (countAssignedElems l)
  | link, idx, .nil, c => by
    constructor <;>
      simp [assignIdsElems, countAssignedElems, assignedIdsElems, intRange_zero]
  | link, idx, .cons e rest, c => by
    cases e with
    | obj me pe =>
      obtain ⟨ihv1, ihv2⟩ :=
        assignIdsNode_spec (some ⟨link.1, link.2.1, elemParentKey link.2.2 idx⟩)
          (.obj me pe) c
      obtain ⟨ihr1, ihr2⟩ := assignIdsElems_spec link (idx + 1) rest
        ((assignIdsNode (some ⟨link.1, link.2.1, elemParentKey link.2.2 idx⟩)
          (.obj me pe) c).2)
      constructor
      · simp only [assignIdsElems, countAssignedElems_cons_obj]
        rw [ihr1, ihv1]
        push_cast
        ring
      · have hobj : Node.isObjNode ((assignIdsNode
            (some ⟨link.1, link.2.1, elemParentKey link.2.2 idx⟩) (.obj me pe) c).1) = true := by
          rw [isObjNode_pointwise]
          rw [assignIdsNode_elemSig (some ⟨link.1, link.2.1, elemParentKey link.2.2 idx⟩)
            (.obj me pe) c]
          rfl
        simp only [assignIdsElems]
        rw [assignedIdsElems_cons_isObj _ _ hobj, countAssignedElems_cons_obj, ihv2, ihr2,
          ihv1, ← intRange_append]
    | arr ae ee =>
      obtain ⟨ihr1, ihr2⟩ := assignIdsElems_spec link (idx + 1) rest c
      constructor
      · simp only [assignIdsElems]
        rw [countAssignedElems_cons_other (Node.arr ae ee) rest rfl, ihr1]
      · simp only [assignIdsElems]
        rw [assignedIdsElems_cons_other (Node.arr ae ee) _ rfl,
          countAssignedElems_cons_other (Node.arr ae ee) rest rfl, ihr2]
    | str s =>
      obtain ⟨ihr1, ihr2⟩ := assignIdsElems_spec link (idx + 1) rest c
      constructor
      · simp only [assignIdsElems]
        rw [countAssignedElems_cons_other (Node.str s) rest rfl, ihr1]
      · simp only [assignIdsElems]
        rw [assignedIdsElems_cons_other (Node.str s) _ rfl,
          countAssignedElems_cons_other (Node.str s) rest rfl, ihr2]
    | num s =>
      obtain ⟨ihr1, ihr2⟩ := assignIdsElems_spec link (idx + 1) rest c
      constructor
      · simp only [assignIdsElems]
        rw [countAssignedElems_cons_other (Node.num s) rest rfl, ihr1]
      · simp only [assignIdsElems]
        rw [assignedIdsElems_cons_other (Node.num s) _ rfl,
          countAssignedElems_cons_other (Node.num s) rest rfl, ihr2]
    | boolv b =>
      obtain ⟨ihr1, ihr2⟩ := assignIdsElems_spec link (idx + 1) rest c
      constructor
      · simp only [assignIdsElems]
        rw [countAssignedElems_cons_other (Node.boolv b) rest rfl, ihr1]
      · simp only [assignIdsElems]
        rw [assignedIdsElems_cons_other (Node.boolv b) _ rfl,
          countAssignedElems_cons_other (Node.boolv b) rest rfl, ihr2]
    | null =>
      obtain ⟨ihr1, ihr2⟩ := assignIdsElems_spec link (idx + 1) rest c
      constructor
      · simp only [assignIdsElems]
        rw [countAssignedElems_cons_other (Node.null) rest rfl, ihr1]
      · simp only [assignIdsElems]
        rw [assignedIdsElems_cons_other (Node.null) _ rfl,
          countAssignedElems_cons_other (Node.null) rest rfl, ihr2]
end

/-- A found column index points at the searched name and is in range. -/
theorem findColIdx_spec (cols : List String) (nm : String) :
    ∀ i, findColIdx cols nm = some i → cols.getD i "" = nm ∧ i < cols.length := by
  induction cols with
  | nil => intro i h; simp [findColIdx] at h
  | cons c rest ih =>
    intro i h
    by_cases hc : c = nm
    · rw [findColIdx, if_pos hc] at h
      obtain rfl : (0 : Nat) = i := by simpa using h
      simpa using hc
    · rw [findColIdx, if_neg hc] at h
      obtain ⟨i0, hi0, rfl⟩ := Option.map_eq_some'.mp h
      obtain ⟨h1, h2⟩ := ih i0 hi0
      constructor
      · simpa using h1
      · simpa using h2

/-- Distinct column names found in the same list sit at distinct indices. -/
theorem findColIdx_ne (cols : List String) (nm : String) (i j : Nat)
    (hj : findColIdx cols "id" = some j) (hi : findColIdx cols nm = some i)
    (hne : nm ≠ "id") : i ≠ j := by
  intro e
  subst e
  obtain ⟨h1, _⟩ := findColIdx_spec cols "id" i hj
  obtain ⟨h2, _⟩ := findColIdx_spec cols nm i hi
  exact hne (h2.symm.trans h1)

/-- Reading back a written cell. -/
theorem getD_set_self (l : List String) (i : Nat) (v : String) (h : i < l.length) :
    (l.set i v).getD i "" = v := by
  induction l generalizing i with
  | nil => simp at h
  | cons a rest ih =>
    cases i with
    | zero => rfl
    | succ n =>
      simp only [List.set, List.getD, List.get?]
      exact ih n (by simpa using h)

/-- Writing one cell leaves the others unchanged. -/
theorem getD_set_ne (l : List String) (i k : Nat) (v : String) (h : i ≠ k) :
    (l.set i v).getD k "" = l.getD k "" := by
  induction l generalizing i k with
  | nil => simp
  | cons a rest ih =>
    cases i with
    | zero =>
      cases k with
      | zero => exact absurd rfl h
      | succ n => rfl
    | succ m =>
      cases k with
      | zero => rfl
      | succ n =>
        simp only [List.set, List.getD, List.get?]
        exact ih m n (fun e => h (by rw [e]))

/-- `setAt` at a different (or absent) index leaves a cell unchanged. -/
theorem setAt_getD_ne (row : List String) (idx : Option Nat) (v : String) (j : Nat)
    (h : idx ≠ some j) :
    (setAt row idx v).getD j "" = row.getD j "" := by
  cases idx with
  | none => rfl
  | some i =>
    have : i ≠ j := fun e => h (by rw [e])
    exact getD_set_ne row i j v this

/-- The `id` cell of one scalar-array row is the 1-based loop counter. -/
theorem buildScalarRow_id (cols : List String) (j : Nat) (pIdx sIdx vIdx : Option Nat)
    (pid : Int) (i : Nat) (e : Node) (hj : j < cols.length)
    (hp : pIdx ≠ some j) (hs : sIdx ≠ some j) (hv : vIdx ≠ some j) :
    (buildScalarRow cols (some j) pIdx sIdx vIdx pid i e).getD j "" = toString (i + 1) := by
  rw [buildScalarRow]
  rw [setAt_getD_ne _ _ _ _ hv, setAt_getD_ne _ _ _ _ hs, setAt_getD_ne _ _ _ _ hp]
  show ((List.replicate cols.length "").set j (toString (i + 1))).getD j "" = _
  exact getD_set_self _ j _ (by simpa using hj)

/-- The `id` cells of the generated scalar-array rows follow the loop
counter, 1-based. -/
theorem buildScalarRowsFrom_ids (cols : List String) (j : Nat)
    (pIdx sIdx vIdx : Option Nat) (pid : Int) (hj : j < cols.length)
    (hp : pIdx ≠ some j) (hs : sIdx ≠ some j) (hv : vIdx ≠ some j) :
    ∀ (elems : List Node) (i : Nat),
      (buildScalarRowsFrom cols (some j) pIdx sIdx vIdx pid i elems).map
          (fun r => r.getD j "") =
        (List.range elems.length).map (fun k => toString (i + k + 1)) := by
  intro elems
  induction elems with
  | nil => intro i; rfl
  | cons e rest ih =>
    intro i
    rw [buildScalarRowsFrom]
    simp only [List.map_cons, buildScalarRow_id cols j pIdx sIdx vIdx pid i e hj hp hs hv,
      ih (i + 1), List.length_cons, List.range_succ_eq_map, List.map_map]
    congr 1
    apply List.map_congr_left
    intro k _
    simp only [Function.comp]
    congr 1
    omega

/-- An all-scalar array is not an array of objects. -/
theorem scalars_not_objects (elems : NodeList) (h : isArrayOfScalars elems = true) :
    isArrayOfObjects elems = false := by
  cases elems with
  | nil => simp [isArrayOfScalars] at h
  | cons first rest =>
    have hfirst : Node.isScalarNode first = true := by
      rw [isArrayOfScalars] at h
      · simp only [NodeList.toNodes, List.all_cons, Bool.and_eq_true] at h
        exact h.1
      · exact fun e => NodeList.noConfusion e
    rw [isArrayOfObjects]
    simp only [NodeList.toNodes, List.all_cons, Bool.and_eq_true]
    cases first <;> simp_all [Node.isScalarNode, Node.isObjNode]

/-- C7: the identifier-assignment pass hands out ids to the Object nodes it
visits in one pre-order walk as exactly the consecutive integers starting
at the incoming counter (1 at the root), and advances the counter by the
number of visited Objects; an array of scalars is left entirely untouched
with the counter unchanged, so its elements never receive a global id; and
the rows generated for a scalar-array table instead carry, in their `id`
column, the 1-based positions local to that one array — an index chosen
for any other column name never collides with the `id` column's index. -/
theorem c7_id_assignment :
    (∀ (ov : Option ParentLink) (n : Node) (c : Int),
        (assignIdsNode ov n c).2 = c + (countAssignedNode n : Int) ∧
        assignedIdsNode ((assignIdsNode ov n c).1) = intRange c (countAssignedNode n)) ∧
    (∀ n : Node, assignedIdsNode (astAssignIds n) = intRange 1 (countAssignedNode n)) ∧
    (∀ (ov : Option ParentLink) (a : AMeta) (elems : NodeList) (c : Int),
        isArrayOfScalars elems = true →
        assignIdsNode ov (.arr a elems) c = (.arr (a.applyLink ov) elems, c)) ∧
    (∀ (cols : List String) (pIdx sIdx vIdx : Option Nat) (pid : Int)
        (elems : List Node) (j : Nat),
        findColIdx cols "id" = some j →
        pIdx ≠ some j → sIdx ≠ some j → vIdx ≠ some j →
        (buildScalarRows cols (findColIdx cols "id") pIdx sIdx vIdx pid elems).map
            (fun r => r.getD j "") =
          (List.range elems.length).map (fun i => toString (i + 1))) ∧
    (∀ (cols : List String) (nm : String) (i j : Nat),
        findColIdx cols "id" = some j → findColIdx cols nm = some i → nm ≠ "id" →
        i ≠ j) := by
  refine ⟨assignIdsNode_spec, ?_, ?_, ?_, findColIdx_ne⟩
  · intro n
    exact (assignIdsNode_spec none n 1).2
  · intro ov a elems c h
    have hno : isArrayOfObjects elems = false := scalars_not_objects elems h
    simp [assignIdsNode, hno]
  · intro cols pIdx sIdx vIdx pid elems j hj hp hs hv
    rw [hj, buildScalarRows, buildScalarRowsFrom_ids cols j pIdx sIdx vIdx pid
      (findColIdx_spec cols "id" j hj).2 hp hs hv elems 0]
    apply List.map_congr_left
    intro k _
    congr 1
    omega

/-- Witness for C7 at concrete inputs: a one-element scalar array is left
untouched with the counter unchanged; the rows of a scalar-array table
over the canonical four columns carry ids 1, 2; and the `seq` column's
index 2 differs from the `id` column's index 0. -/
theorem c7_id_assignment_witness :
    assignIdsNode none (.arr {} (.cons (.str "a") .nil)) 5 =
      (Node.arr (AMeta.applyLink {} none) (.cons (.str "a") .nil), 5) ∧
    (buildScalarRows ["id", "entitie_id", "seq", "value"]
        (findColIdx ["id", "entitie_id", "seq", "value"] "id") (some 1) (some 2) (some 3)
        1 [Node.str "a", Node.str "b"]).map (fun r => r.getD 0 "") =
      (List.range ([Node.str "a", Node.str "b"].length)).map (fun i => toString (i + 1)) ∧
    (2 : Nat) ≠ 0 :=
  ⟨c7_id_assignment.2.2.1 none {} (.cons (.str "a") .nil) 5 (by decide),
   c7_id_assignment.2.2.2.1 ["id", "entitie_id", "seq", "value"] (some 1) (some 2) (some 3)
     1 [Node.str "a", Node.str "b"] 0 (by decide) (by decide) (by decide) (by decide),
   c7_id_assignment.2.2.2.2 ["id", "entitie_id", "seq", "value"] "seq" 2 0 (by decide)
     (by decide) (by decide)⟩
